import Mathlib

/-!
Shallow embedding of `src/core/src/classes/process.ts` (the actionhero
`Process` lifecycle class): initializer discovery and registration,
priority-bucketed phase scheduling, the `initialize` / `start` / `stop`
lifecycle methods and the `fatalError` escalator.

Conventions of the embedding:
* JavaScript errors are represented by their `stack`/message string.
* An optional async method (`initialize`, `start`, `stop` on an
  initializer) is `Option (Option String)`: `none` means the method is
  absent, `some none` means it resolves, `some (some e)` means it
  rejects with error `e`.
* Observable effects (log calls, pid-file calls, sleeps, `process.exit`)
  are recorded in an event trace.  An `Event.stepRan st` marker is
  recorded whenever the sequential executor invokes a phase step, and an
  `Event.stopCalled` marker whenever `stop()` is entered; these markers
  make "step X was (not) executed" and "stop() was attempted" statable.
* `stop` and `fatalError` invoke each other in the source; the embedding
  gives both a fuel parameter that decreases on each mutual call.  Any
  fuel large enough for the nesting depth (2–3 in all reachable
  scenarios) gives the source behaviour.
-/

/-- Model of an instantiated initializer (class `Initializer`): its name,
the three phase priorities, the three optional async phase methods
(`none` = method absent, `some none` = resolves, `some (some e)` =
rejects with `e`), and the result of `validate()` (`none` = passes,
`some e` = throws `e`). -/
structure Initializer where
  name : String
  loadPriority : Int
  startPriority : Int
  stopPriority : Int
  initializeM : Option (Option String)
  startM : Option (Option String)
  stopM : Option (Option String)
  validate : Option String
deriving DecidableEq

/-- A step of a flattened phase list: one of the three per-initializer
wrapper closures built in `Process.initialize` (capturing the source
file and the instance), or one of the two synthetic terminal steps
pushed by `start()` / `stop()`. -/
inductive Step where
  | loadFn (file : String) (ini : Initializer)
  | startFn (file : String) (ini : Initializer)
  | stopFn (file : String) (ini : Initializer)
  | startTerminal
  | stopTerminal
deriving DecidableEq

/-- Observable events of a run: `log(message, severity, detail?)` calls,
pid-file writes/clears, `utils.sleep` pauses, `process.exit(code)`, a
marker for each executor invocation of a phase step, a marker for each
entry into `stop()`, and a marker for each `validate()` call. -/
inductive Event where
  | log (message : String) (severity : String) (detail : Option String)
  | stepRan (st : Step)
  | validateCalled (name : String) (file : String)
  | writePid
  | clearPid
  | slept (ms : Nat)
  | stopCalled
  | exited (code : Nat)
deriving DecidableEq

/-- Severity test: is an event a `log` call at `"warning"` severity?
(The duplicate-name collision message is the only warning the class
emits.) -/
def isWarnLog : Event → Bool
  | .log _ sev _ => sev = "warning"
  | _ => false

/-- The mutable fields of the `Process` instance: the status flags, the
name-keyed initializer registry (an insertion-ordered association list,
modelling the JS object), the three flattened phase lists, the plugin
map (name, path) and `startCount` / `bootTime`. -/
structure ProcState where
  running : Bool
  initialized : Bool
  shuttingDown : Bool
  bootTimeSet : Bool
  startCount : Nat
  initializers : List (String × Initializer)
  loadInitializers : List Step
  startInitializers : List Step
  stopInitializers : List Step
  plugins : List (String × String)
deriving DecidableEq

/-- The state produced by the constructor: empty registry, empty phase
lists, empty plugin map, `startCount = 0`, all flags unset (falsy). -/
def ProcState.fresh : ProcState :=
  { running := false, initialized := false, shuttingDown := false
    bootTimeSet := false, startCount := 0, initializers := []
    loadInitializers := [], startInitializers := [], stopInitializers := []
    plugins := [] }

/-- Registry lookup, `this.initializers[name]` (a JS object access on an
insertion-ordered association list with unique keys). -/
def regLookup : List (String × Initializer) → String → Option Initializer
  | [], _ => none
  | (n, i) :: rest, name => if name = n then some i else regLookup rest name

/-- The JSON rendering of the phase tag used in
`JSON.stringify(type)` inside `fatalError` (our tags are plain strings
without escapes). -/
def jsonStringify (s : String) : String := "\"" ++ s ++ "\""

/-- The externally supplied server identifier (`id` collaborator),
only interpolated into a start-up log message. -/
def serverId : String := "server-id"

/-! ## Priority bucket maps and `flattenOrderedInitializer` -/

/-- Bucket access `collection[key]` on a priority-keyed bucket map
(association list with unique integer keys). -/
def bucketGet {α : Type} : List (Int × List α) → Int → List α
  | [], _ => []
  | (k', vs) :: rest, k => if k = k' then vs else bucketGet rest k

/-- Lines 205–213: `if (rankings[p] === undefined) rankings[p] = []` —
create the (empty) bucket for a key if it is not present yet. -/
def bucketEnsure {α : Type} : List (Int × List α) → Int → List (Int × List α)
  | [], k => [(k, [])]
  | (k', vs) :: rest, k => if k = k' then (k', vs) :: rest else (k', vs) :: bucketEnsure rest k

/-- `rankings[p].push(fn)` — append a value at the end of the bucket for
`k` (creating the bucket if absent, which after `bucketEnsure` never
happens). -/
def bucketPush {α : Type} : List (Int × List α) → Int → α → List (Int × List α)
  | [], k, v => [(k, [v])]
  | (k', vs) :: rest, k, v =>
    if k = k' then (k', vs ++ [v]) :: rest else (k', vs) :: bucketPush rest k v

/-- Lines 205–227 for one bucket map and one initializer: ensure the
bucket for its priority exists, then push the wrapper only when the
priority is strictly positive. -/
def addToBuckets {α : Type} (m : List (Int × List α)) (p : Int) (v : α) : List (Int × List α) :=
  let m := bucketEnsure m p
  if 0 < p then bucketPush m p v else m

/-- Lines 344–358, `flattenOrderedInitializer`: collect the integer keys
of the bucket map, sort them ascending (`keys.sort(sortNumber)` with the
numeric comparator), and concatenate the buckets in that key order. -/
def flattenOrderedInitializer {α : Type} (collection : List (Int × List α)) : List α :=
  let keys := collection.map Prod.fst
  let sorted := List.insertionSort (fun a b => a ≤ b) keys
  sorted.flatMap (fun k => bucketGet collection k)

/-- The bucket map built by folding `addToBuckets` over a stream of
items, keyed and valued by the given projections — the shape of the
three bucket maps built inside `Process.initialize`. -/
def bucketize {β γ : Type} (key : β → Int) (val : β → γ) (xs : List β) : List (Int × List γ) :=
  xs.foldl (fun m x => addToBuckets m (key x) (val x)) []

/-! ## Phase step execution -/

/-- The error (if any) with which a step rejects; the per-initializer
wrappers reject exactly when the wrapped method is present and rejects,
the synthetic terminal steps never reject. -/
def stepError : Step → Option String
  | .loadFn _ ini => match ini.initializeM with | some (some e) => some e | _ => none
  | .startFn _ ini => match ini.startM with | some (some e) => some e | _ => none
  | .stopFn _ ini => match ini.stopM with | some (some e) => some e | _ => none
  | .startTerminal => none
  | .stopTerminal => none

/-- Is the step one of the three per-initializer wrapper closures (as
opposed to a synthetic terminal step)? -/
def isWrapper : Step → Bool
  | .loadFn _ _ => true
  | .startFn _ _ => true
  | .stopFn _ _ => true
  | _ => false

/-- The events emitted by one per-initializer wrapper closure (lines
148–203): nothing beyond the invocation marker if the method is absent;
otherwise an entry debug log, then either an exit debug log (success) or
an `emerg` log carrying the error description (rejection). -/
def stepEvents : Step → List Event
  | .loadFn file ini =>
    Event.stepRan (.loadFn file ini) ::
    (match ini.initializeM with
     | none => []
     | some none =>
       [.log ("Loading initializer: " ++ ini.name) "debug" (some file),
        .log ("Loaded initializer: " ++ ini.name) "debug" (some file)]
     | some (some e) =>
       [.log ("Loading initializer: " ++ ini.name) "debug" (some file),
        .log ("Exception occurred in initializer `" ++ ini.name ++ "` during load") "emerg" (some e)])
  | .startFn file ini =>
    Event.stepRan (.startFn file ini) ::
    (match ini.startM with
     | none => []
     | some none =>
       [.log ("Starting initializer: " ++ ini.name) "debug" (some file),
        .log ("Started initializer: " ++ ini.name) "debug" (some file)]
     | some (some e) =>
       [.log ("Starting initializer: " ++ ini.name) "debug" (some file),
        .log ("Exception occurred in initializer `" ++ ini.name ++ "` during start") "emerg" (some e)])
  | .stopFn file ini =>
    Event.stepRan (.stopFn file ini) ::
    (match ini.stopM with
     | none => []
     | some none =>
       [.log ("Stopping initializer: " ++ ini.name) "debug" (some file),
        .log ("Stopped initializer: " ++ ini.name) "debug" (some file)]
     | some (some e) =>
       [.log ("Stopping initializer: " ++ ini.name) "debug" (some file),
        .log ("Exception occurred in initializer `" ++ ini.name ++ "` during stop") "emerg" (some e)])
  | .startTerminal => [Event.stepRan .startTerminal]
  | .stopTerminal => [Event.stepRan .stopTerminal]

/-- Execute one phase step from a state and trace: the wrapper closures
only log (state unchanged) and propagate their method's rejection; the
start terminal step (lines 263–272) stamps the boot time and emits the
Started/Restarted messages driven by `startCount`; the stop terminal
step (lines 292–300) clears the pid file, logs, clears `shuttingDown`,
wipes the initializer registry and sleeps. -/
def execStep (st : Step) (s : ProcState) (t : List Event) :
    ProcState × List Event × Option String :=
  match st with
  | .loadFn file ini => (s, t ++ stepEvents (.loadFn file ini), stepError (.loadFn file ini))
  | .startFn file ini => (s, t ++ stepEvents (.startFn file ini), stepError (.startFn file ini))
  | .stopFn file ini => (s, t ++ stepEvents (.stopFn file ini), stepError (.stopFn file ini))
  | .startTerminal =>
    let t := t ++ [Event.stepRan .startTerminal]
    let s := { s with bootTimeSet := true }
    if s.startCount = 0 then
      ({ s with startCount := s.startCount + 1 },
       t ++ [.log ("server ID: " ++ serverId) "notice" none,
             .log "*** ActionHero Started ***" "notice" none], none)
    else
      (s, t ++ [.log "*** ActionHero Restarted ***" "notice" none], none)
  | .stopTerminal =>
    let t := t ++ [Event.stepRan .stopTerminal]
    ({ s with shuttingDown := false, initializers := [] },
     t ++ [Event.clearPid, .log "*** ActionHero Stopped ***" "notice" none, .slept 100], none)

/-- Modelled from the spec: `utils.asyncWaterfall` (its source is not
under `src/`) — run the steps of a phase list strictly one at a time, in
order; the first rejection aborts the remaining steps and propagates the
error; otherwise complete normally. -/
def waterfall : List Step → ProcState → List Event → ProcState × List Event × Option String
  | [], s, t => (s, t, none)
  | st :: rest, s, t =>
    match execStep st s t with
    | (s', t', none) => waterfall rest s' t'
    | (s', t', some e) => (s', t', some e)

/-! ## The failure escalator and `stop()` -/

/-- The argument passed to `fatalError`: a nullish value (`undefined` /
`null`), a single (non-array) error, or an array of errors — possibly
empty.  In JavaScript an empty array is truthy, which the normalization
below reflects. -/
inductive FatalArg where
  | nullish
  | single (e : String)
  | array (es : List String)
deriving DecidableEq

/-- Lines 327–330: `if (errors && !(errors instanceof Array)) errors =
[errors]` followed by the truthiness test `if (errors)`: a nullish
argument stays falsy (`none`); a single error becomes a one-element
list; an array — including the empty array, which is truthy — is kept
as is. -/
def normalizeErrors : FatalArg → Option (List String)
  | .nullish => none
  | .single e => some [e]
  | .array es => some es

/-- The state mutation at the head of a running `stop()` (lines
285–300): set `shuttingDown`, clear `running` and `initialized`, and
push the synthetic terminal stop step. -/
def stopRunState (s : ProcState) : ProcState :=
  { s with
    running := false
    initialized := false
    shuttingDown := true
    stopInitializers := s.stopInitializers ++ [Step.stopTerminal] }

/-- The events a running `stop()` emits before its waterfall: the entry
marker, the "stopping process..." notice and the settling pause. -/
def stopRunTrace (t : List Event) : List Event :=
  t ++ [Event.stopCalled, Event.log "stopping process..." "notice" none, Event.slept 100]

/-- The diagnostic logs of `fatalError` (lines 331–335): the top-level
`emerg` message naming the phase tag via `JSON.stringify`, then each
error's stack. -/
def fatalLogs (ty : String) (es : List String) : List Event :=
  Event.log ("Error with initializer step: " ++ jsonStringify ty) "emerg" none
    :: es.map (fun e => Event.log e "emerg" none)

namespace Process

mutual

/-- Lines 283–313, `stop()`: if running, set `shuttingDown`, clear
`running` and `initialized`, log and pause, push the terminal stop step,
and run the stop list through the waterfall, escalating a rejection via
`fatalError` tagged `"stop"`; if not running but already shutting down,
silently ignore the duplicate signal (only a source comment marks it);
otherwise log "Cannot shut down actionhero, not running" at error
severity.  The first fuel argument bounds the `stop` ↔ `fatalError`
mutual nesting. -/
def stop : Nat → ProcState → List Event → ProcState × List Event
  | 0, s, t => (s, t)
  | fuel + 1, s, t =>
    if s.running = true then
      match waterfall (stopRunState s).stopInitializers (stopRunState s) (stopRunTrace t) with
      | (s', t', none) => (s', t')
      | (s', t', some e) => fatalError fuel (.single e) "stop" s' t'
    else if s.shuttingDown = true then
      (s, t ++ [Event.stopCalled])
    else
      (s, t ++ [Event.stopCalled, Event.log "Cannot shut down actionhero, not running" "error" none])

/-- Lines 326–342, `fatalError(errors, type)`: normalize the argument;
when the result is present (truthy), log the top-level `emerg` message
naming the phase tag via `JSON.stringify`, log each error, attempt
`stop()` as best-effort cleanup, pause, and exit the process with
status 1; when the argument is nullish, do nothing at all. -/
def fatalError : Nat → FatalArg → String → ProcState → List Event → ProcState × List Event
  | 0, _, _, s, t => (s, t)
  | fuel + 1, errors, ty, s, t =>
    match normalizeErrors errors with
    | none => (s, t)
    | some es =>
      let r := stop fuel s (t ++ fatalLogs ty es)
      (r.1, r.2 ++ [Event.slept 1000, Event.exited 1])

end

end Process

/-! ## Discovery and registration (`initialize()`) -/

/-- The external world `initialize()` reads: the glob results for the
built-in and configured search paths, the glob results under a plugin
path (legacy `initializers/` and compiled `dist/initializers/`
subtrees), filesystem existence, the exported initializer classes a
loaded module instantiates to, and the environment label used in a
start-up log line. -/
structure Env where
  coreFiles : List String
  projectFiles : List String
  pluginFilesOld : String → List String
  pluginFilesNew : String → List String
  fsExists : String → Bool
  modules : String → List Initializer
  envName : String

/-- Modelled from the spec: `utils.arrayUnique` (its source is not under
`src/`) — deduplicate the discovered file list, keeping the first
occurrence of each path. -/
def arrayUnique (l : List String) : List String :=
  l.foldl (fun acc x => if x ∈ acc then acc else acc ++ [x]) []

/-- Modelled from the spec: `utils.ensureNoTsHeaderFiles` (its source is
not under `src/`) — drop type-declaration artifacts (`.d.ts` files)
from the discovered file list. -/
def ensureNoTsHeaderFiles (l : List String) : List String :=
  l.filter (fun f => !(f.endsWith ".d.ts"))

/-- Lines 91–107: iterate the plugin map in insertion order; for each
plugin whose path does not exist, throw `plugin path does not exist:
<path>`; otherwise contribute the files of its two glob patterns. -/
def collectPluginFiles (env : Env) : List (String × String) → Except String (List String)
  | [] => .ok []
  | (_, p) :: rest =>
    if env.fsExists p then
      match collectPluginFiles env rest with
      | .ok fs => .ok (env.pluginFilesOld p ++ env.pluginFilesNew p ++ fs)
      | .error e => .error e
    else
      .error ("plugin path does not exist: " ++ p)

/-- Lines 74–110: concatenate core, project and plugin glob results,
then deduplicate and drop declaration headers; a missing plugin path
makes the whole discovery (and `initialize()`) throw. -/
def discoverFiles (env : Env) (plugins : List (String × String)) : Except String (List String) :=
  let files := env.coreFiles ++ env.projectFiles
  match collectPluginFiles env plugins with
  | .error e => .error e
  | .ok pf => .ok (ensureNoTsHeaderFiles (arrayUnique (files ++ pf)))

/-- The per-`initialize()` build accumulator: the process state (whose
`initializers` field is the registry), the three local priority bucket
maps, and the event trace. -/
structure BuildAcc where
  state : ProcState
  loadB : List (Int × List Step)
  startB : List (Int × List Step)
  stopB : List (Int × List Step)
  trace : List Event

/-- Lines 231–240: install the three flattened phase lists on the
process state. -/
def schedState (acc : BuildAcc) : ProcState :=
  { acc.state with
    loadInitializers := flattenOrderedInitializer acc.loadB
    startInitializers := flattenOrderedInitializer acc.startB
    stopInitializers := flattenOrderedInitializer acc.stopB }

/-- Lines 257–272 state part: mark the process running and push the
synthetic terminal start step. -/
def startPushState (s : ProcState) : ProcState :=
  { s with
    running := true
    startInitializers := s.startInitializers ++ [Step.startTerminal] }

/-- Lines 257–261 events: the pid-file write, the environment banner
and the starting banner. -/
def startBanner (env : Env) (t : List Event) : List Event :=
  t ++ [Event.writePid, Event.log ("environment: " ++ env.envName) "notice" none,
        Event.log "*** Starting ActionHero ***" "info" none]

namespace Process

/-- Lines 130–228 for one exported class: instantiate it; if its name is
already registered, log the collision warning and keep the existing
registration; otherwise call `validate()` — escalating a validation
throw through `fatalError(error, file)` — and register the new
instance.  In all cases build the three wrapper closures for the new
instance and bucket them by its own priorities (pushing only positive
priorities, after ensuring the bucket keys exist). -/
def processExport (fuel : Nat) (file : String) (ini : Initializer) (acc : BuildAcc) : BuildAcc :=
  let (s, t) :=
    if (regLookup acc.state.initializers ini.name).isSome then
      (acc.state,
       acc.trace ++ [Event.log ("an existing initializer with the same name `" ++ ini.name ++
         "` will be overridden by the file " ++ file) "warning" none])
    else
      match ini.validate with
      | none =>
        ({ acc.state with initializers := acc.state.initializers ++ [(ini.name, ini)] },
         acc.trace ++ [Event.validateCalled ini.name file])
      | some err =>
        fatalError fuel (.single err) file acc.state (acc.trace ++ [Event.validateCalled ini.name file])
  { state := s, trace := t
    loadB := addToBuckets acc.loadB ini.loadPriority (.loadFn file ini)
    startB := addToBuckets acc.startB ini.startPriority (.startFn file ini)
    stopB := addToBuckets acc.stopB ini.stopPriority (.stopFn file ini) }

/-- Lines 112–229 for one discovered file: load its module; if it
exports nothing, escalate `no exported initializers found in <file>`
through `fatalError` (and continue with the next file, as the source
does not await the escalator there); otherwise process each exported
class in order. -/
def processFile (fuel : Nat) (env : Env) (acc : BuildAcc) (file : String) : BuildAcc :=
  let mods := env.modules file
  let acc :=
    if mods.isEmpty then
      let (s, t) :=
        fatalError fuel (.single ("no exported initializers found in " ++ file)) file
          acc.state acc.trace
      { acc with state := s, trace := t }
    else acc
  mods.foldl (fun a ini => processExport fuel file ini a) acc

/-- Lines 70–250, `initialize()`: discover the initializer files
(throwing — the returned `Option String` — on a missing plugin path
without touching the state), register every exported class while
building the three bucket maps, flatten the bucket maps into the three
phase lists, then run the load list through the waterfall; a load-step
rejection escalates through `fatalError` tagged `"initialize"`, success
sets `initialized`. -/
def initializeP (fuel : Nat) (env : Env) (s : ProcState) (t : List Event) :
    ProcState × List Event × Option String :=
  match discoverFiles env s.plugins with
  | .error e => (s, t, some e)
  | .ok files =>
    let acc := files.foldl (processFile fuel env) ⟨s, [], [], [], t⟩
    match waterfall (schedState acc).loadInitializers (schedState acc) acc.trace with
    | (s', t', none) => ({ s' with initialized := true }, t', none)
    | (s', t', some e) =>
      let r := fatalError fuel (.single e) "initialize" s' t'
      (r.1, r.2, none)

/-- Lines 252–281, `start()`: run `initialize()` first unless already
initialized (a discovery throw propagates); write the pid file, set
`running`, log the environment and the starting banner, push the
terminal start step, and run the start list through the waterfall; a
rejection escalates through `fatalError` tagged `"start"`. -/
def startP (fuel : Nat) (env : Env) (s : ProcState) (t : List Event) :
    ProcState × List Event × Option String :=
  match (if s.initialized = true then (s, t, none) else initializeP fuel env s t) with
  | (s, t, some e) => (s, t, some e)
  | (s, t, none) =>
    match waterfall (startPushState s).startInitializers (startPushState s) (startBanner env t) with
    | (s', t', none) => (s', t', none)
    | (s', t', some e) =>
      let r := fatalError fuel (.single e) "start" s' t'
      (r.1, r.2, none)

end Process

/-- The discovery-ordered stream of (source file, exported initializer)
pairs `initialize()` registers and schedules. -/
def exportStream (env : Env) (files : List String) : List (String × Initializer) :=
  files.flatMap (fun f => (env.modules f).map (fun ini => (f, ini)))

/-- The load priority a step was bucketed under (the wrapped instance's
own `loadPriority`; terminal steps are never in a load bucket). -/
def stepLoadPriority : Step → Int
  | .loadFn _ ini => ini.loadPriority
  | _ => 0

/-- The start priority a step was bucketed under. -/
def stepStartPriority : Step → Int
  | .startFn _ ini => ini.startPriority
  | _ => 0

/-- The stop priority a step was bucketed under. -/
def stepStopPriority : Step → Int
  | .stopFn _ ini => ini.stopPriority
  | _ => 0

/-- The name of the initializer a wrapper step belongs to. -/
def stepName : Step → String
  | .loadFn _ ini => ini.name
  | .startFn _ ini => ini.name
  | .stopFn _ ini => ini.name
  | .startTerminal => "startTerminal"
  | .stopTerminal => "stopTerminal"

/-! ## Concrete scenario material -/

/-- Is an event a `log` call (of any severity)? -/
def isLogEvent : Event → Bool
  | .log _ _ _ => true
  | _ => false

/-- A well-behaved initializer: all three phase methods present and
resolving, `validate()` passing. -/
def mkIni (n : String) (lp sp stp : Int) : Initializer :=
  { name := n, loadPriority := lp, startPriority := sp, stopPriority := stp
    initializeM := some none, startM := some none, stopM := some none, validate := none }

/-- Scenario environment for the ordering claim: initializer `A` with
`loadPriority = 1`, then `B` with `loadPriority = 2`, then `C` with
`loadPriority = 1`, discovered in that order from three files. -/
def envABC : Env :=
  { coreFiles := ["fA", "fB", "fC"], projectFiles := []
    pluginFilesOld := fun _ => [], pluginFilesNew := fun _ => []
    fsExists := fun _ => true
    modules := fun f =>
      if f = "fA" then [mkIni "A" 1 1 1]
      else if f = "fB" then [mkIni "B" 2 2 2]
      else if f = "fC" then [mkIni "C" 1 1 1]
      else []
    envName := "test" }

/-- Scenario environment for the exclusion claim: initializer `D` with
`loadPriority = 0`, `startPriority = -3` and `stopPriority = 0` next to
a normal initializer `A`. -/
def iniD : Initializer :=
  { name := "D", loadPriority := 0, startPriority := -3, stopPriority := 0
    initializeM := some none, startM := some none, stopM := some none, validate := none }

/-- Environment with the opted-out initializer `D` (see `iniD`). -/
def envD : Env :=
  { coreFiles := ["fA", "fD"], projectFiles := []
    pluginFilesOld := fun _ => [], pluginFilesNew := fun _ => []
    fsExists := fun _ => true
    modules := fun f =>
      if f = "fA" then [mkIni "A" 1 1 1]
      else if f = "fD" then [iniD]
      else []
    envName := "test" }

/-- First-registered instance named `X` (collision scenario). -/
def iniX1 : Initializer := mkIni "X" 1 1 1

/-- Second, colliding instance also named `X`, with different
priorities, discovered from a later file. -/
def iniX2 : Initializer :=
  { name := "X", loadPriority := 5, startPriority := 5, stopPriority := 9
    initializeM := some none, startM := some none, stopM := some none, validate := none }

/-- Collision scenario environment: two files exporting instances that
share the name `X` (see `iniX1`, `iniX2`). -/
def envDup : Env :=
  { coreFiles := ["f1", "f2"], projectFiles := []
    pluginFilesOld := fun _ => [], pluginFilesNew := fun _ => []
    fsExists := fun _ => true
    modules := fun f => if f = "f1" then [iniX1] else if f = "f2" then [iniX2] else []
    envName := "test" }

/-- Environment whose single registered plugin has a path that does not
exist on disk. -/
def envBadPlugin : Env :=
  { coreFiles := ["fA"], projectFiles := []
    pluginFilesOld := fun _ => [], pluginFilesNew := fun _ => []
    fsExists := fun _ => false
    modules := fun f => if f = "fA" then [mkIni "A" 1 1 1] else []
    envName := "test" }

/-- A process state holding the missing-path plugin descriptor. -/
def sBadPlugin : ProcState :=
  { ProcState.fresh with plugins := [("badPlugin", "/bad")] }

/-- An initializer whose `start()` method rejects with `"boom"`. -/
def iniBadStart : Initializer :=
  { name := "BAD", loadPriority := 1, startPriority := 1, stopPriority := 1
    initializeM := some none, startM := some (some "boom"), stopM := some none, validate := none }

/-- An initializer whose `stop()` method rejects with `"boom"`. -/
def iniBadStop : Initializer :=
  { name := "BADSTOP", loadPriority := 1, startPriority := 1, stopPriority := 1
    initializeM := some none, startM := some none, stopM := some (some "boom"), validate := none }

/-- A running state with a three-step start list whose middle step
rejects, and a one-step stop list. -/
def sStartFail : ProcState :=
  { ProcState.fresh with
      initialized := true
      startInitializers :=
        [Step.startFn "fA" (mkIni "A" 1 1 1),
         Step.startFn "fBad" iniBadStart,
         Step.startFn "fB" (mkIni "B" 2 2 2)]
      stopInitializers := [Step.stopFn "fA" (mkIni "A" 1 1 1)] }

/-- A running state whose stop list's middle step rejects. -/
def sStopFail : ProcState :=
  { ProcState.fresh with
      running := true
      stopInitializers :=
        [Step.stopFn "fA" (mkIni "A" 1 1 1),
         Step.stopFn "fBadStop" iniBadStop,
         Step.stopFn "fB" (mkIni "B" 2 2 2)] }

/-- A running state with an all-succeeding stop list and a non-empty
registry (for the registry-wipe claim). -/
def sStopOk : ProcState :=
  { ProcState.fresh with
      running := true
      initializers := [("A", mkIni "A" 1 1 1), ("B", mkIni "B" 2 2 2)]
      stopInitializers := [Step.stopFn "fA" (mkIni "A" 1 1 1), Step.stopFn "fB" (mkIni "B" 2 2 2)] }

/-! ## Lemmas: bucket maps -/

theorem bucketGet_ensure {α : Type} (m : List (Int × List α)) (p k : Int) :
    bucketGet (bucketEnsure m p) k = bucketGet m k := by
  induction m with
  | nil => by_cases h : k = p <;> simp [bucketEnsure, bucketGet, h]
  | cons hd tl ih =>
    obtain ⟨k', vs⟩ := hd
    by_cases hp : p = k' <;> by_cases hk : k = k' <;>
      simp [bucketEnsure, bucketGet, hp, hk, ih]

theorem bucketGet_push {α : Type} (m : List (Int × List α)) (p k : Int) (v : α) :
    bucketGet (bucketPush m p v) k =
      if k = p then bucketGet m k ++ [v] else bucketGet m k := by
  induction m with
  | nil =>
    by_cases h : k = p <;> simp [bucketPush, bucketGet, h]
  | cons hd tl ih =>
    obtain ⟨k', vs⟩ := hd
    by_cases hp : p = k' <;> by_cases hk : k = k'
    · simp [bucketPush, bucketGet, hp, hk]
    · have : ¬k = p := fun h => hk (h.trans hp)
      simp [bucketPush, bucketGet, hp, hk, this]
    · have h1 : ¬k = p := fun h => hp (h.symm.trans hk)
      have h2 : ¬k' = p := fun h => hp h.symm
      simp [bucketPush, bucketGet, hp, hk, h1, h2]
    · simp [bucketPush, bucketGet, hp, hk, ih]

theorem bucketGet_add {α : Type} (m : List (Int × List α)) (p k : Int) (v : α) :
    bucketGet (addToBuckets m p v) k =
      if k = p ∧ 0 < p then bucketGet m k ++ [v] else bucketGet m k := by
  unfold addToBuckets
  by_cases hp : 0 < p
  · simp only [hp, if_true]
    rw [bucketGet_push, bucketGet_ensure]
    by_cases hk : k = p <;> simp [hk, hp]
  · simp only [hp, if_false]
    rw [bucketGet_ensure]
    simp [hp]

theorem keys_ensure {α : Type} (m : List (Int × List α)) (p : Int) :
    (bucketEnsure m p).map Prod.fst =
      if p ∈ m.map Prod.fst then m.map Prod.fst else m.map Prod.fst ++ [p] := by
  induction m with
  | nil => simp [bucketEnsure]
  | cons hd tl ih =>
    obtain ⟨k', vs⟩ := hd
    by_cases hp : p = k' <;> simp [bucketEnsure, hp, ih] <;> split <;> simp_all

theorem keys_push {α : Type} (m : List (Int × List α)) (p : Int) (v : α) :
    (bucketPush m p v).map Prod.fst =
      if p ∈ m.map Prod.fst then m.map Prod.fst else m.map Prod.fst ++ [p] := by
  induction m with
  | nil => simp [bucketPush]
  | cons hd tl ih =>
    obtain ⟨k', vs⟩ := hd
    by_cases hp : p = k' <;> simp [bucketPush, hp, ih] <;> split <;> simp_all

theorem keys_add {α : Type} (m : List (Int × List α)) (p : Int) (v : α) :
    (addToBuckets m p v).map Prod.fst =
      if p ∈ m.map Prod.fst then m.map Prod.fst else m.map Prod.fst ++ [p] := by
  unfold addToBuckets
  by_cases hp : 0 < p
  · simp only [hp, if_true]
    rw [keys_push, keys_ensure]
    by_cases hm : p ∈ m.map Prod.fst <;> simp [hm]
  · simp only [hp, if_false]
    exact keys_ensure m p

theorem mem_keys_add {α : Type} (m : List (Int × List α)) (p k : Int) (v : α) :
    k ∈ (addToBuckets m p v).map Prod.fst ↔ k ∈ m.map Prod.fst ∨ k = p := by
  rw [keys_add]
  by_cases hm : p ∈ m.map Prod.fst
  · simp only [hm, if_true]
    constructor
    · exact Or.inl
    · rintro (h | rfl) <;> [exact h; exact hm]
  · simp [hm]

theorem keys_add_nodup {α : Type} (m : List (Int × List α)) (p : Int) (v : α)
    (h : (m.map Prod.fst).Nodup) : ((addToBuckets m p v).map Prod.fst).Nodup := by
  rw [keys_add]
  by_cases hm : p ∈ m.map Prod.fst
  · simpa [hm]
  · simp only [hm, if_false]
    refine List.Nodup.append h (List.nodup_singleton p) ?_
    intro a ha hb
    simp only [List.mem_singleton] at hb
    subst hb
    exact hm ha

theorem bucketGet_foldl_add {β γ : Type} (key : β → Int) (val : β → γ)
    (xs : List β) (m : List (Int × List γ)) (k : Int) :
    bucketGet (xs.foldl (fun m x => addToBuckets m (key x) (val x)) m) k
      = bucketGet m k ++
          (if 0 < k then (xs.filter (fun x => decide (key x = k))).map val else []) := by
  induction xs generalizing m with
  | nil => simp
  | cons x xs ih =>
    simp only [List.foldl_cons]
    rw [ih, bucketGet_add]
    by_cases hx : key x = k
    · subst hx
      by_cases hp : 0 < key x
      · simp [hp, List.filter_cons]
      · simp [hp, List.filter_cons]
    · have h1 : ¬(k = key x ∧ 0 < key x) := fun h => hx h.1.symm
      simp only [h1, if_false, List.filter_cons]
      have : (decide (key x = k)) = false := by simpa using hx
      simp [this]

theorem bucketGet_bucketize {β γ : Type} (key : β → Int) (val : β → γ)
    (xs : List β) (k : Int) :
    bucketGet (bucketize key val xs) k
      = if 0 < k then (xs.filter (fun x => decide (key x = k))).map val else [] := by
  unfold bucketize
  rw [bucketGet_foldl_add]
  simp [bucketGet]

theorem mem_keys_foldl_add {β γ : Type} (key : β → Int) (val : β → γ)
    (xs : List β) (m : List (Int × List γ)) (k : Int) :
    k ∈ (xs.foldl (fun m x => addToBuckets m (key x) (val x)) m).map Prod.fst
      ↔ k ∈ m.map Prod.fst ∨ k ∈ xs.map key := by
  induction xs generalizing m with
  | nil => simp
  | cons x xs ih =>
    simp only [List.foldl_cons, List.map_cons, List.mem_cons]
    rw [ih, mem_keys_add]
    tauto

theorem keys_foldl_add_nodup {β γ : Type} (key : β → Int) (val : β → γ)
    (xs : List β) (m : List (Int × List γ)) (h : (m.map Prod.fst).Nodup) :
    ((xs.foldl (fun m x => addToBuckets m (key x) (val x)) m).map Prod.fst).Nodup := by
  induction xs generalizing m with
  | nil => simpa
  | cons x xs ih =>
    simp only [List.foldl_cons]
    exact ih _ (keys_add_nodup _ _ _ h)

theorem keys_bucketize_nodup {β γ : Type} (key : β → Int) (val : β → γ) (xs : List β) :
    ((bucketize key val xs).map Prod.fst).Nodup :=
  keys_foldl_add_nodup key val xs [] (by simp)

theorem mem_keys_bucketize {β γ : Type} (key : β → Int) (val : β → γ) (xs : List β) (k : Int) :
    k ∈ (bucketize key val xs).map Prod.fst ↔ k ∈ xs.map key := by
  unfold bucketize
  rw [mem_keys_foldl_add]
  simp

theorem filter_flatMap_list {γ : Type} (K : List Int) (g : Int → List γ) (p : γ → Bool) :
    (K.flatMap g).filter p = K.flatMap (fun k => (g k).filter p) := by
  induction K with
  | nil => simp
  | cons k K ih => simp [List.flatMap_cons, List.filter_append, ih]

theorem flatMap_get_filter {γ : Type} (f : γ → Int) (K : List Int) (g : Int → List γ)
    (hK : K.Nodup) (hg : ∀ k, ∀ y ∈ g k, f y = k) (k : Int) :
    (K.flatMap g).filter (fun y => decide (f y = k)) = if k ∈ K then g k else [] := by
  induction K with
  | nil => simp
  | cons k' K ih =>
    have hK' : K.Nodup := hK.of_cons
    simp only [List.flatMap_cons, List.filter_append]
    by_cases hkk : k' = k
    · subst hkk
      have h1 : (g k').filter (fun y => decide (f y = k')) = g k' := by
        apply List.filter_eq_self.2
        intro y hy
        simp [hg k' y hy]
      have h2 : k' ∉ K := (List.nodup_cons.1 hK).1
      rw [h1, ih hK', if_neg h2]
      simp
    · have h1 : (g k').filter (fun y => decide (f y = k)) = [] := by
        apply List.filter_eq_nil_iff.2
        intro y hy
        simp [hg k' y hy, hkk]
      have hmem : (k ∈ k' :: K) ↔ k ∈ K := by
        simp only [List.mem_cons]
        constructor
        · rintro (h | h)
          · exact absurd h.symm hkk
          · exact h
        · exact Or.inr
      rw [h1, ih hK', List.nil_append]
      by_cases hk : k ∈ K
      · rw [if_pos hk, if_pos (hmem.2 hk)]
      · rw [if_neg hk, if_neg (fun h => hk (hmem.1 h))]

theorem flatMap_get_pairwise {γ : Type} (f : γ → Int) (K : List Int) (g : Int → List γ)
    (hs : K.Sorted (fun a b => a ≤ b)) (hg : ∀ k, ∀ y ∈ g k, f y = k) :
    (K.flatMap g).Pairwise (fun a b => f a ≤ f b) := by
  rw [List.pairwise_flatMap]
  constructor
  · intro k _
    apply List.pairwise_of_forall_mem_list
    intro a ha b hb
    rw [hg k a ha, hg k b hb]
  · apply hs.imp_of_mem
    intro k1 k2 h1 h2 hle
    intro x hx y hy
    rw [hg k1 x hx, hg k2 y hy]
    exact hle

theorem sortedKeys_sorted {α : Type} (m : List (Int × List α)) :
    (List.insertionSort (fun a b : Int => a ≤ b) (m.map Prod.fst)).Sorted (fun a b => a ≤ b) :=
  List.sorted_insertionSort _ _

theorem sortedKeys_nodup {α : Type} (m : List (Int × List α))
    (h : (m.map Prod.fst).Nodup) :
    (List.insertionSort (fun a b : Int => a ≤ b) (m.map Prod.fst)).Nodup :=
  (List.perm_insertionSort _ _).nodup_iff.2 h

theorem mem_sortedKeys {α : Type} (m : List (Int × List α)) (k : Int) :
    k ∈ List.insertionSort (fun a b : Int => a ≤ b) (m.map Prod.fst) ↔ k ∈ m.map Prod.fst :=
  (List.perm_insertionSort _ _).mem_iff

/-- Sortedness of every flattened phase list: if `f` recovers each
scheduled value's bucket key, the flattened list is non-decreasing
under `f`. -/
theorem flatten_bucketize_pairwise {β γ : Type} (key : β → Int) (val : β → γ)
    (f : γ → Int) (xs : List β) (hf : ∀ x ∈ xs, f (val x) = key x) :
    (flattenOrderedInitializer (bucketize key val xs)).Pairwise (fun a b => f a ≤ f b) := by
  unfold flattenOrderedInitializer
  apply flatMap_get_pairwise f _ _ (sortedKeys_sorted _)
  intro k y hy
  rw [bucketGet_bucketize] at hy
  by_cases hk : 0 < k
  · rw [if_pos hk] at hy
    obtain ⟨x, hx, rfl⟩ := List.mem_map.1 hy
    have := List.of_mem_filter hx
    have hkey : key x = k := by simpa using this
    rw [hf x (List.mem_of_mem_filter hx), hkey]
  · rw [if_neg hk] at hy
    exact absurd hy (List.not_mem_nil y)

/-- Stability of every flattened phase list: the subsequence of steps
bucketed under a positive key `k` is exactly the discovery-ordered
stream restricted to key `k`. -/
theorem flatten_bucketize_filter {β γ : Type} (key : β → Int) (val : β → γ)
    (f : γ → Int) (xs : List β) (hf : ∀ x ∈ xs, f (val x) = key x) (k : Int) (hk : 0 < k) :
    (flattenOrderedInitializer (bucketize key val xs)).filter (fun y => decide (f y = k))
      = (xs.filter (fun x => decide (key x = k))).map val := by
  unfold flattenOrderedInitializer
  rw [flatMap_get_filter f _ _ (sortedKeys_nodup _ (keys_bucketize_nodup key val xs))]
  · by_cases hmem : k ∈ List.insertionSort (fun a b : Int => a ≤ b) ((bucketize key val xs).map Prod.fst)
    · rw [if_pos hmem, bucketGet_bucketize, if_pos hk]
    · rw [if_neg hmem]
      rw [mem_sortedKeys, mem_keys_bucketize] at hmem
      have : xs.filter (fun x => decide (key x = k)) = [] := by
        apply List.filter_eq_nil_iff.2
        intro x hx
        simp only [decide_eq_true_eq]
        intro h
        exact hmem (h ▸ List.mem_map_of_mem key hx)
      rw [this]
      simp
  · intro k' y hy
    rw [bucketGet_bucketize] at hy
    by_cases hk' : 0 < k'
    · rw [if_pos hk'] at hy
      obtain ⟨x, hx, rfl⟩ := List.mem_map.1 hy
      have hkey : key x = k' := by simpa using List.of_mem_filter hx
      rw [hf x (List.mem_of_mem_filter hx), hkey]
    · rw [if_neg hk'] at hy
      exact absurd hy (List.not_mem_nil y)

/-- Membership in a flattened phase list: only values scheduled from the
stream, and only under a strictly positive key, appear. -/
theorem mem_flatten_bucketize {β γ : Type} (key : β → Int) (val : β → γ)
    (xs : List β) (y : γ) (hy : y ∈ flattenOrderedInitializer (bucketize key val xs)) :
    ∃ x, x ∈ xs ∧ y = val x ∧ 0 < key x := by
  unfold flattenOrderedInitializer at hy
  obtain ⟨k, _, hk⟩ := List.mem_flatMap.1 hy
  rw [bucketGet_bucketize] at hk
  by_cases h : 0 < k
  · rw [if_pos h] at hk
    obtain ⟨x, hx, rfl⟩ := List.mem_map.1 hk
    have hkey : key x = k := by simpa using List.of_mem_filter hx
    exact ⟨x, List.mem_of_mem_filter hx, rfl, hkey ▸ h⟩
  · rw [if_neg h] at hk
    exact absurd hk (List.not_mem_nil y)

/-! ## Lemmas: step execution and the waterfall -/

theorem execStep_wrapper (st : Step) (s : ProcState) (t : List Event)
    (h : isWrapper st = true) :
    execStep st s t = (s, t ++ stepEvents st, stepError st) := by
  cases st <;> simp_all [isWrapper, execStep]

theorem execStep_error (st : Step) (s : ProcState) (t : List Event) :
    (execStep st s t).2.2 = stepError st := by
  cases st <;> simp [execStep, stepError] <;> split <;> simp

theorem stepError_isWrapper (st : Step) (e : String) (h : stepError st = some e) :
    isWrapper st = true := by
  cases st <;> simp_all [stepError, isWrapper]

theorem execStep_preserve (st : Step) (s : ProcState) (t : List Event) :
    (execStep st s t).1.running = s.running ∧
    (execStep st s t).1.loadInitializers = s.loadInitializers ∧
    (execStep st s t).1.startInitializers = s.startInitializers ∧
    (execStep st s t).1.stopInitializers = s.stopInitializers ∧
    (execStep st s t).1.plugins = s.plugins := by
  cases st <;> simp [execStep] <;> split <;> simp

theorem execStep_new_events (st : Step) (s : ProcState) (t : List Event) :
    ∃ u, (execStep st s t).2.1 = t ++ u ∧
      ∀ x ∈ u, x = Event.stepRan st ∨
        (∃ m sev d, x = Event.log m sev d ∧ sev ≠ "warning") ∨
        x = Event.clearPid ∨ x = Event.slept 100 := by
  cases st with
  | loadFn file ini =>
    refine ⟨stepEvents (.loadFn file ini), by simp [execStep], ?_⟩
    intro x hx
    cases h : ini.initializeM with
    | none =>
      simp [stepEvents, h] at hx
      exact Or.inl hx
    | some o =>
      cases o <;> simp [stepEvents, h] at hx <;> rcases hx with rfl | rfl | rfl
      · exact Or.inl rfl
      · exact Or.inr (Or.inl ⟨_, _, _, rfl, by decide⟩)
      · exact Or.inr (Or.inl ⟨_, _, _, rfl, by decide⟩)
      · exact Or.inl rfl
      · exact Or.inr (Or.inl ⟨_, _, _, rfl, by decide⟩)
      · exact Or.inr (Or.inl ⟨_, _, _, rfl, by decide⟩)
  | startFn file ini =>
    refine ⟨stepEvents (.startFn file ini), by simp [execStep], ?_⟩
    intro x hx
    cases h : ini.startM with
    | none =>
      simp [stepEvents, h] at hx
      exact Or.inl hx
    | some o =>
      cases o <;> simp [stepEvents, h] at hx <;> rcases hx with rfl | rfl | rfl
      · exact Or.inl rfl
      · exact Or.inr (Or.inl ⟨_, _, _, rfl, by decide⟩)
      · exact Or.inr (Or.inl ⟨_, _, _, rfl, by decide⟩)
      · exact Or.inl rfl
      · exact Or.inr (Or.inl ⟨_, _, _, rfl, by decide⟩)
      · exact Or.inr (Or.inl ⟨_, _, _, rfl, by decide⟩)
  | stopFn file ini =>
    refine ⟨stepEvents (.stopFn file ini), by simp [execStep], ?_⟩
    intro x hx
    cases h : ini.stopM with
    | none =>
      simp [stepEvents, h] at hx
      exact Or.inl hx
    | some o =>
      cases o <;> simp [stepEvents, h] at hx <;> rcases hx with rfl | rfl | rfl
      · exact Or.inl rfl
      · exact Or.inr (Or.inl ⟨_, _, _, rfl, by decide⟩)
      · exact Or.inr (Or.inl ⟨_, _, _, rfl, by decide⟩)
      · exact Or.inl rfl
      · exact Or.inr (Or.inl ⟨_, _, _, rfl, by decide⟩)
      · exact Or.inr (Or.inl ⟨_, _, _, rfl, by decide⟩)
  | startTerminal =>
    by_cases h : s.startCount = 0
    · refine ⟨[Event.stepRan .startTerminal,
        Event.log ("server ID: " ++ serverId) "notice" none,
        Event.log "*** ActionHero Started ***" "notice" none], by simp [execStep, h], ?_⟩
      intro x hx
      simp only [List.mem_cons, List.not_mem_nil, or_false] at hx
      rcases hx with rfl | rfl | rfl
      · exact Or.inl rfl
      · exact Or.inr (Or.inl ⟨_, _, _, rfl, by decide⟩)
      · exact Or.inr (Or.inl ⟨_, _, _, rfl, by decide⟩)
    · refine ⟨[Event.stepRan .startTerminal,
        Event.log "*** ActionHero Restarted ***" "notice" none], by simp [execStep, h], ?_⟩
      intro x hx
      simp only [List.mem_cons, List.not_mem_nil, or_false] at hx
      rcases hx with rfl | rfl
      · exact Or.inl rfl
      · exact Or.inr (Or.inl ⟨_, _, _, rfl, by decide⟩)
  | stopTerminal =>
    refine ⟨[Event.stepRan .stopTerminal, Event.clearPid,
      Event.log "*** ActionHero Stopped ***" "notice" none, Event.slept 100],
      by simp [execStep], ?_⟩
    intro x hx
    simp only [List.mem_cons, List.not_mem_nil, or_false] at hx
    rcases hx with rfl | rfl | rfl | rfl
    · exact Or.inl rfl
    · exact Or.inr (Or.inr (Or.inl rfl))
    · exact Or.inr (Or.inl ⟨_, _, _, rfl, by decide⟩)
    · exact Or.inr (Or.inr (Or.inr rfl))

theorem execStep_trace (st : Step) (s : ProcState) (t : List Event) :
    ∃ u, (execStep st s t).2.1 = t ++ u ∧
      (∀ st', Event.stepRan st' ∈ u → st' = st) ∧
      (∀ e ∈ u, isWarnLog e = false) ∧
      (∀ e ∈ u, e ≠ Event.stopCalled) ∧
      (∀ c, Event.exited c ∉ u) := by
  obtain ⟨u, hu, hchar⟩ := execStep_new_events st s t
  refine ⟨u, hu, ?_, ?_, ?_, ?_⟩
  · intro st' h'
    rcases hchar _ h' with h1 | ⟨m, sev, d, h1, _⟩ | h1 | h1
    · first | exact h1 | (injection h1 with h; try exact h)
    · simp at h1
    · simp at h1
    · simp at h1
  · intro e he
    rcases hchar _ he with rfl | ⟨m, sev, d, rfl, hsev⟩ | rfl | rfl
    · simp [isWarnLog]
    · simp [isWarnLog, hsev]
    · simp [isWarnLog]
    · simp [isWarnLog]
  · intro e he
    rcases hchar _ he with rfl | ⟨m, sev, d, rfl, _⟩ | rfl | rfl <;> simp
  · intro c hc
    rcases hchar _ hc with h1 | ⟨m, sev, d, h1, _⟩ | h1 | h1 <;> simp at h1

theorem waterfall_cons_ok (st : Step) (rest : List Step) (s : ProcState) (t : List Event)
    (h : stepError st = none) :
    waterfall (st :: rest) s t = waterfall rest (execStep st s t).1 (execStep st s t).2.1 := by
  have he := execStep_error st s t
  rcases hx : execStep st s t with ⟨s', t', err⟩
  rw [hx, h] at he
  simp only at he
  subst he
  simp [waterfall, hx]

theorem waterfall_cons_err (st : Step) (rest : List Step) (s : ProcState) (t : List Event)
    (e : String) (h : stepError st = some e) :
    waterfall (st :: rest) s t = (s, t ++ stepEvents st, some e) := by
  have hw := execStep_wrapper st s t (stepError_isWrapper st e h)
  simp [waterfall, hw, h]

theorem waterfall_preserve (l : List Step) (s : ProcState) (t : List Event) :
    (waterfall l s t).1.running = s.running ∧
    (waterfall l s t).1.loadInitializers = s.loadInitializers ∧
    (waterfall l s t).1.startInitializers = s.startInitializers ∧
    (waterfall l s t).1.stopInitializers = s.stopInitializers ∧
    (waterfall l s t).1.plugins = s.plugins := by
  induction l generalizing s t with
  | nil => simp [waterfall]
  | cons st rest ih =>
    have hp := execStep_preserve st s t
    rcases hx : execStep st s t with ⟨s', t', err⟩
    rw [hx] at hp
    obtain ⟨g1, g2, g3, g4, g5⟩ := hp
    cases err with
    | none =>
      simp only [waterfall, hx]
      obtain ⟨h1, h2, h3, h4, h5⟩ := ih s' t'
      exact ⟨h1.trans g1, h2.trans g2, h3.trans g3, h4.trans g4, h5.trans g5⟩
    | some e =>
      simp only [waterfall, hx]
      exact ⟨g1, g2, g3, g4, g5⟩

theorem waterfall_trace (l : List Step) (s : ProcState) (t : List Event) :
    ∃ u, (waterfall l s t).2.1 = t ++ u ∧
      (∀ st', Event.stepRan st' ∈ u → st' ∈ l) ∧
      (∀ e ∈ u, isWarnLog e = false) ∧
      (∀ e ∈ u, e ≠ Event.stopCalled) ∧
      (∀ c, Event.exited c ∉ u) := by
  induction l generalizing s t with
  | nil => exact ⟨[], by simp [waterfall], by simp, by simp, by simp, by simp⟩
  | cons st rest ih =>
    obtain ⟨u1, hu1, hr1, hw1, hsc1, hex1⟩ := execStep_trace st s t
    rcases hx : execStep st s t with ⟨s', t', err⟩
    rw [hx] at hu1
    simp only at hu1
    cases err with
    | none =>
      obtain ⟨u2, hu2, hr2, hw2, hsc2, hex2⟩ := ih s' t'
      refine ⟨u1 ++ u2, ?_, ?_, ?_, ?_, ?_⟩
      · simp only [waterfall, hx]
        rw [hu2, hu1, List.append_assoc]
      · intro st' h'
        rcases List.mem_append.1 h' with h | h
        · exact (hr1 st' h) ▸ List.mem_cons_self st rest
        · exact List.mem_cons_of_mem st (hr2 st' h)
      · intro e he
        rcases List.mem_append.1 he with h | h
        · exact hw1 e h
        · exact hw2 e h
      · intro e he
        rcases List.mem_append.1 he with h | h
        · exact hsc1 e h
        · exact hsc2 e h
      · intro c hc
        rcases List.mem_append.1 hc with h | h
        · exact hex1 c h
        · exact hex2 c h
    | some e =>
      refine ⟨u1, ?_, ?_, hw1, hsc1, hex1⟩
      · simp only [waterfall, hx]
        exact hu1
      · intro st' h'
        exact (hr1 st' h') ▸ List.mem_cons_self st rest

theorem waterfall_ok_prefix (pre rest : List Step) (s : ProcState) (t : List Event)
    (h : ∀ st ∈ pre, stepError st = none) :
    ∃ s' u, waterfall (pre ++ rest) s t = waterfall rest s' (t ++ u) ∧
      s'.running = s.running ∧ s'.loadInitializers = s.loadInitializers ∧
      s'.startInitializers = s.startInitializers ∧
      s'.stopInitializers = s.stopInitializers ∧ s'.plugins = s.plugins ∧
      (∀ st', Event.stepRan st' ∈ u → st' ∈ pre) ∧
      (∀ e ∈ u, isWarnLog e = false) ∧
      (∀ e ∈ u, e ≠ Event.stopCalled) ∧
      (∀ c, Event.exited c ∉ u) := by
  induction pre generalizing s t with
  | nil => exact ⟨s, [], by simp, rfl, rfl, rfl, rfl, rfl, by simp, by simp, by simp, by simp⟩
  | cons st pre ih =>
    have hst : stepError st = none := h st (List.mem_cons_self st pre)
    have hcons := waterfall_cons_ok st (pre ++ rest) s t hst
    obtain ⟨u1, hu1, hr1, hw1, hsc1, hex1⟩ := execStep_trace st s t
    have hp := execStep_preserve st s t
    obtain ⟨s2, u2, heq, p1, p2, p3, p4, p5, hr2, hw2, hsc2, hex2⟩ :=
      ih (execStep st s t).1 (execStep st s t).2.1 (fun x hx => h x (List.mem_cons_of_mem st hx))
    refine ⟨s2, u1 ++ u2, ?_, ?_, ?_, ?_, ?_, ?_, ?_, ?_, ?_, ?_⟩
    · rw [List.cons_append, hcons, heq, hu1, List.append_assoc]
    · exact p1.trans hp.1
    · exact p2.trans hp.2.1
    · exact p3.trans hp.2.2.1
    · exact p4.trans hp.2.2.2.1
    · exact p5.trans hp.2.2.2.2
    · intro st' h'
      rcases List.mem_append.1 h' with hh | hh
      · exact (hr1 st' hh) ▸ List.mem_cons_self st pre
      · exact List.mem_cons_of_mem st (hr2 st' hh)
    · intro e he
      rcases List.mem_append.1 he with hh | hh
      · exact hw1 e hh
      · exact hw2 e hh
    · intro e he
      rcases List.mem_append.1 he with hh | hh
      · exact hsc1 e hh
      · exact hsc2 e hh
    · intro c hc
      rcases List.mem_append.1 hc with hh | hh
      · exact hex1 c hh
      · exact hex2 c hh

theorem waterfall_wrappers_ok (pre rest : List Step) (s : ProcState) (t : List Event)
    (h : ∀ st ∈ pre, isWrapper st = true ∧ stepError st = none) :
    waterfall (pre ++ rest) s t = waterfall rest s (t ++ pre.flatMap stepEvents) := by
  induction pre generalizing t with
  | nil => simp
  | cons st pre ih =>
    have hst := h st (List.mem_cons_self st pre)
    have hw := execStep_wrapper st s t hst.1
    rw [List.cons_append, waterfall_cons_ok st (pre ++ rest) s t hst.2, hw]
    simp only
    rw [ih (t ++ stepEvents st) (fun x hx => h x (List.mem_cons_of_mem st hx))]
    simp [List.append_assoc]


/-! ## Lemmas: `stop()` and `fatalError` -/

theorem stopRunState_stopInits (s : ProcState) :
    (stopRunState s).stopInitializers = s.stopInitializers ++ [Step.stopTerminal] := rfl

theorem stop_not_running (fuel : Nat) (s : ProcState) (t : List Event)
    (h : s.running = false) : (Process.stop fuel s t).1 = s := by
  cases fuel with
  | zero => rfl
  | succ n =>
    simp only [Process.stop, h]
    by_cases hsd : s.shuttingDown = true <;> simp [hsd]

theorem stop_not_running_trace (fuel : Nat) (s : ProcState) (t : List Event)
    (h : s.running = false) :
    ∃ u, (Process.stop fuel s t).2 = t ++ u ∧
      ∀ e ∈ u, e = Event.stopCalled ∨
        e = Event.log "Cannot shut down actionhero, not running" "error" none := by
  cases fuel with
  | zero => exact ⟨[], by simp [Process.stop], by simp⟩
  | succ n =>
    simp only [Process.stop, h]
    by_cases hsd : s.shuttingDown = true
    · refine ⟨[Event.stopCalled], by simp [hsd], ?_⟩
      intro e he
      simp at he
      exact Or.inl he
    · refine ⟨[Event.stopCalled, Event.log "Cannot shut down actionhero, not running" "error" none],
        by simp [hsd], ?_⟩
      intro e he
      simp only [List.mem_cons, List.not_mem_nil, or_false] at he
      rcases he with rfl | rfl
      · exact Or.inl rfl
      · exact Or.inr rfl

theorem fatalError_nullish (fuel : Nat) (ty : String) (s : ProcState) (t : List Event) :
    Process.fatalError fuel FatalArg.nullish ty s t = (s, t) := by
  cases fuel <;> simp [Process.fatalError, normalizeErrors]

theorem fatalError_not_running (fuel : Nat) (arg : FatalArg) (ty : String)
    (s : ProcState) (t : List Event) (h : s.running = false) :
    (Process.fatalError fuel arg ty s t).1 = s := by
  cases fuel with
  | zero => rfl
  | succ n =>
    cases harg : normalizeErrors arg with
    | none => simp [Process.fatalError, harg]
    | some es =>
      simp only [Process.fatalError, harg]
      exact stop_not_running n s (t ++ fatalLogs ty es) h

theorem mem_fatalLogs (ty : String) (es : List String) (e : Event) (he : e ∈ fatalLogs ty es) :
    ∃ m d, e = Event.log m "emerg" d := by
  unfold fatalLogs at he
  rcases List.mem_cons.1 he with rfl | hh
  · exact ⟨_, _, rfl⟩
  · obtain ⟨x, _, rfl⟩ := List.mem_map.1 hh
    exact ⟨_, _, rfl⟩

theorem stop_fatal_events (fuel : Nat) :
    (∀ s t, ∃ u, (Process.stop fuel s t).2 = t ++ u ∧
       (∀ st', Event.stepRan st' ∈ u → st' ∈ s.stopInitializers ∨ st' = Step.stopTerminal) ∧
       (∀ e ∈ u, isWarnLog e = false)) ∧
    (∀ arg ty s t, ∃ u, (Process.fatalError fuel arg ty s t).2 = t ++ u ∧
       (∀ st', Event.stepRan st' ∈ u → st' ∈ s.stopInitializers ∨ st' = Step.stopTerminal) ∧
       (∀ e ∈ u, isWarnLog e = false)) := by
  induction fuel with
  | zero =>
    constructor
    · intro s t
      exact ⟨[], by simp [Process.stop], by simp, by simp⟩
    · intro arg ty s t
      exact ⟨[], by simp [Process.fatalError], by simp, by simp⟩
  | succ n ih =>
    constructor
    · intro s t
      simp only [Process.stop]
      by_cases hrun : s.running = true
      · simp only [hrun, if_true]
        rcases hw : waterfall (stopRunState s).stopInitializers (stopRunState s) (stopRunTrace t)
          with ⟨s2, t2, err⟩
        obtain ⟨u, hu, hprov, hwarn, _, _⟩ :=
          waterfall_trace (stopRunState s).stopInitializers (stopRunState s) (stopRunTrace t)
        rw [hw] at hu
        simp only at hu
        have hprov' : ∀ st', Event.stepRan st' ∈ u →
            st' ∈ s.stopInitializers ∨ st' = Step.stopTerminal := by
          intro st' h'
          have := hprov st' h'
          rw [stopRunState_stopInits] at this
          rcases List.mem_append.1 this with hh | hh
          · exact Or.inl hh
          · simp at hh
            exact Or.inr hh
        cases err with
        | none =>
          refine ⟨Event.stopCalled :: Event.log "stopping process..." "notice" none
              :: Event.slept 100 :: u, ?_, ?_, ?_⟩
          · simp only [hw]
            rw [hu]
            simp [stopRunTrace]
          · intro st' h'
            simp only [List.mem_cons] at h'
            rcases h' with h' | h' | h' | h' <;> first
              | (exact absurd h' (by simp))
              | exact hprov' st' h'
          · intro e he
            simp only [List.mem_cons] at he
            rcases he with rfl | rfl | rfl | he <;>
              first | rfl | exact hwarn e he
        | some e =>
          obtain ⟨u2, hu2, hprov2, hwarn2⟩ := ih.2 (FatalArg.single e) "stop" s2 t2
          have hsi : s2.stopInitializers = (stopRunState s).stopInitializers := by
            have := (waterfall_preserve (stopRunState s).stopInitializers (stopRunState s)
              (stopRunTrace t)).2.2.2.1
            rw [hw] at this
            exact this
          refine ⟨Event.stopCalled :: Event.log "stopping process..." "notice" none
              :: Event.slept 100 :: (u ++ u2), ?_, ?_, ?_⟩
          · simp only [hw]
            rw [hu2, hu]
            simp [stopRunTrace]
          · intro st' h'
            simp only [List.mem_cons, List.mem_append] at h'
            rcases h' with h' | h' | h' | h' | h'
            · exact absurd h' (by simp)
            · exact absurd h' (by simp)
            · exact absurd h' (by simp)
            · exact hprov' st' h'
            · have := hprov2 st' h'
              rw [hsi, stopRunState_stopInits] at this
              rcases this with hh | hh
              · rcases List.mem_append.1 hh with hh | hh
                · exact Or.inl hh
                · simp at hh
                  exact Or.inr hh
              · exact Or.inr hh
          · intro x hx
            simp only [List.mem_cons, List.mem_append] at hx
            rcases hx with rfl | rfl | rfl | hx | hx <;>
              first | rfl | exact hwarn x hx | exact hwarn2 x hx
      · simp only [hrun, if_false]
        by_cases hsd : s.shuttingDown = true
        · refine ⟨[Event.stopCalled], by simp [hsd], ?_, ?_⟩
          · intro st' h'
            simp at h'
          · intro e he
            simp at he
            simp [he, isWarnLog]
        · refine ⟨[Event.stopCalled,
            Event.log "Cannot shut down actionhero, not running" "error" none], by simp [hsd], ?_, ?_⟩
          · intro st' h'
            simp at h'
          · intro e he
            simp only [List.mem_cons, List.not_mem_nil, or_false] at he
            rcases he with rfl | rfl <;> rfl
    · intro arg ty s t
      cases harg : normalizeErrors arg with
      | none => exact ⟨[], by simp [Process.fatalError, harg], by simp, by simp⟩
      | some es =>
        simp only [Process.fatalError, harg]
        obtain ⟨u, hu, hprov, hwarn⟩ := ih.1 s (t ++ fatalLogs ty es)
        refine ⟨fatalLogs ty es ++ u ++ [Event.slept 1000, Event.exited 1], ?_, ?_, ?_⟩
        · rw [hu]
          simp
        · intro st' h'
          simp only [List.mem_append] at h'
          rcases h' with (h' | h') | h'
          · obtain ⟨m, d, hmd⟩ := mem_fatalLogs ty es _ h'
            exact absurd hmd (by simp)
          · exact hprov st' h'
          · simp at h'
        · intro e he
          simp only [List.mem_append] at he
          rcases he with (he | he) | he
          · obtain ⟨m, d, rfl⟩ := mem_fatalLogs ty es _ he
            rfl
          · exact hwarn e he
          · simp only [List.mem_cons, List.not_mem_nil, or_false] at he
            rcases he with rfl | rfl <;> rfl

theorem stop_trace_head (fuel : Nat) (s : ProcState) (t : List Event) :
    ∃ v, (Process.stop (fuel + 1) s t).2 = t ++ Event.stopCalled :: v := by
  simp only [Process.stop]
  by_cases hrun : s.running = true
  · simp only [hrun, if_true]
    rcases hw : waterfall (stopRunState s).stopInitializers (stopRunState s) (stopRunTrace t)
      with ⟨s2, t2, err⟩
    obtain ⟨u, hu, _, _, _, _⟩ :=
      waterfall_trace (stopRunState s).stopInitializers (stopRunState s) (stopRunTrace t)
    rw [hw] at hu
    simp only at hu
    cases err with
    | none =>
      refine ⟨Event.log "stopping process..." "notice" none :: Event.slept 100 :: u, ?_⟩
      simp only [hw]
      rw [hu]
      simp [stopRunTrace]
    | some e =>
      obtain ⟨u2, hu2, _, _⟩ := (stop_fatal_events fuel).2 (FatalArg.single e) "stop" s2 t2
      refine ⟨Event.log "stopping process..." "notice" none :: Event.slept 100 :: (u ++ u2), ?_⟩
      simp only [hw]
      rw [hu2, hu]
      simp [stopRunTrace]
  · simp only [hrun, if_false]
    by_cases hsd : s.shuttingDown = true
    · exact ⟨[], by simp [hsd]⟩
    · exact ⟨[Event.log "Cannot shut down actionhero, not running" "error" none], by simp [hsd]⟩

theorem fatalError_acts (fuel : Nat) (arg : FatalArg) (es : List String) (ty : String)
    (s : ProcState) (t : List Event) (h : normalizeErrors arg = some es) :
    ∃ v, (Process.fatalError (fuel + 2) arg ty s t).2
      = t ++ fatalLogs ty es ++ (Event.stopCalled :: v) ++ [Event.slept 1000, Event.exited 1] := by
  simp only [Process.fatalError, h]
  obtain ⟨v, hv⟩ := stop_trace_head fuel s (t ++ fatalLogs ty es)
  refine ⟨v, ?_⟩
  rw [hv]

theorem stop_fatal_preserve (fuel : Nat) :
    (∀ s t, (Process.stop fuel s t).1.loadInitializers = s.loadInitializers ∧
            (Process.stop fuel s t).1.startInitializers = s.startInitializers ∧
            (Process.stop fuel s t).1.plugins = s.plugins) ∧
    (∀ arg ty s t, (Process.fatalError fuel arg ty s t).1.loadInitializers = s.loadInitializers ∧
            (Process.fatalError fuel arg ty s t).1.startInitializers = s.startInitializers ∧
            (Process.fatalError fuel arg ty s t).1.plugins = s.plugins) := by
  induction fuel with
  | zero =>
    constructor
    · intro s t
      exact ⟨rfl, rfl, rfl⟩
    · intro arg ty s t
      exact ⟨rfl, rfl, rfl⟩
  | succ n ih =>
    constructor
    · intro s t
      simp only [Process.stop]
      by_cases hrun : s.running = true
      · simp only [hrun, if_true]
        rcases hw : waterfall (stopRunState s).stopInitializers (stopRunState s) (stopRunTrace t)
          with ⟨s2, t2, err⟩
        have hp := waterfall_preserve (stopRunState s).stopInitializers (stopRunState s) (stopRunTrace t)
        rw [hw] at hp
        simp only at hp
        have hload : s2.loadInitializers = s.loadInitializers := hp.2.1
        have hstart : s2.startInitializers = s.startInitializers := hp.2.2.1
        have hplug : s2.plugins = s.plugins := hp.2.2.2.2
        cases err with
        | none => exact ⟨hload, hstart, hplug⟩
        | some e =>
          obtain ⟨f1, f2, f3⟩ := ih.2 (FatalArg.single e) "stop" s2 t2
          exact ⟨f1.trans hload, f2.trans hstart, f3.trans hplug⟩
      · simp only [hrun, if_false]
        by_cases hsd : s.shuttingDown = true <;> simp [hsd]
    · intro arg ty s t
      cases harg : normalizeErrors arg with
      | none => simp [Process.fatalError, harg]
      | some es =>
        simp only [Process.fatalError, harg]
        exact ih.1 s (t ++ fatalLogs ty es)

theorem waterfall_stopTerminal_end (l : List Step) (s : ProcState) (t : List Event)
    (hok : ∀ st ∈ l, stepError st = none) :
    (waterfall (l ++ [Step.stopTerminal]) s t).2.2 = none ∧
    (waterfall (l ++ [Step.stopTerminal]) s t).1.initializers = [] ∧
    (waterfall (l ++ [Step.stopTerminal]) s t).1.shuttingDown = false := by
  obtain ⟨s', u, heq, _⟩ := waterfall_ok_prefix l [Step.stopTerminal] s t hok
  rw [heq]
  simp [waterfall, execStep]

theorem stop_ok_state (fuel : Nat) (s : ProcState) (t : List Event)
    (hrun : s.running = true)
    (hok : ∀ st ∈ s.stopInitializers, stepError st = none) :
    (Process.stop (fuel + 1) s t).1.initializers = [] ∧
    (Process.stop (fuel + 1) s t).1.running = false ∧
    (Process.stop (fuel + 1) s t).1.shuttingDown = false := by
  simp only [Process.stop, hrun, if_true]
  rcases hw : waterfall (stopRunState s).stopInitializers (stopRunState s) (stopRunTrace t)
    with ⟨s2, t2, err⟩
  have hterm := waterfall_stopTerminal_end s.stopInitializers (stopRunState s) (stopRunTrace t) hok
  rw [← stopRunState_stopInits, hw] at hterm
  obtain ⟨herr, hinit, hsd⟩ := hterm
  simp only at herr hinit hsd
  subst herr
  have hp := waterfall_preserve (stopRunState s).stopInitializers (stopRunState s) (stopRunTrace t)
  rw [hw] at hp
  have hrun2 : s2.running = false := by
    have := hp.1
    simp only at this
    rw [this]
    rfl
  exact ⟨hinit, hrun2, hsd⟩

/-! ## Lemmas: registration build fold -/

theorem processExport_buckets (fuel : Nat) (file : String) (ini : Initializer) (acc : BuildAcc) :
    (Process.processExport fuel file ini acc).loadB
        = addToBuckets acc.loadB ini.loadPriority (Step.loadFn file ini) ∧
    (Process.processExport fuel file ini acc).startB
        = addToBuckets acc.startB ini.startPriority (Step.startFn file ini) ∧
    (Process.processExport fuel file ini acc).stopB
        = addToBuckets acc.stopB ini.stopPriority (Step.stopFn file ini) := by
  unfold Process.processExport
  by_cases h : (regLookup acc.state.initializers ini.name).isSome
  · simp [h]
  · cases hv : ini.validate with
    | none => simp [h, hv]
    | some err =>
      rcases hf : Process.fatalError fuel (FatalArg.single err) file acc.state
        (acc.trace ++ [Event.validateCalled ini.name file]) with ⟨s', t'⟩
      simp [h, hv, hf]

theorem processExports_buckets (fuel : Nat) (file : String) (mods : List Initializer)
    (acc : BuildAcc) :
    (mods.foldl (fun a ini => Process.processExport fuel file ini a) acc).loadB
        = mods.foldl (fun m ini => addToBuckets m ini.loadPriority (Step.loadFn file ini)) acc.loadB ∧
    (mods.foldl (fun a ini => Process.processExport fuel file ini a) acc).startB
        = mods.foldl (fun m ini => addToBuckets m ini.startPriority (Step.startFn file ini)) acc.startB ∧
    (mods.foldl (fun a ini => Process.processExport fuel file ini a) acc).stopB
        = mods.foldl (fun m ini => addToBuckets m ini.stopPriority (Step.stopFn file ini)) acc.stopB := by
  induction mods generalizing acc with
  | nil => exact ⟨rfl, rfl, rfl⟩
  | cons ini mods ih =>
    simp only [List.foldl_cons]
    obtain ⟨h1, h2, h3⟩ := ih (Process.processExport fuel file ini acc)
    obtain ⟨g1, g2, g3⟩ := processExport_buckets fuel file ini acc
    exact ⟨by rw [h1, g1], by rw [h2, g2], by rw [h3, g3]⟩

theorem processFile_buckets (fuel : Nat) (env : Env) (acc : BuildAcc) (file : String) :
    (Process.processFile fuel env acc file).loadB
        = (env.modules file).foldl
            (fun m ini => addToBuckets m ini.loadPriority (Step.loadFn file ini)) acc.loadB ∧
    (Process.processFile fuel env acc file).startB
        = (env.modules file).foldl
            (fun m ini => addToBuckets m ini.startPriority (Step.startFn file ini)) acc.startB ∧
    (Process.processFile fuel env acc file).stopB
        = (env.modules file).foldl
            (fun m ini => addToBuckets m ini.stopPriority (Step.stopFn file ini)) acc.stopB := by
  unfold Process.processFile
  by_cases hmods : (env.modules file).isEmpty
  · rcases hf : Process.fatalError fuel
        (FatalArg.single ("no exported initializers found in " ++ file)) file
        acc.state acc.trace with ⟨s', t'⟩
    simp only [hmods, if_true, hf]
    exact processExports_buckets fuel file (env.modules file) _
  · simp only [hmods, if_false]
    exact processExports_buckets fuel file (env.modules file) acc

theorem exportStream_cons (env : Env) (f : String) (files : List String) :
    exportStream env (f :: files)
      = (env.modules f).map (fun ini => (f, ini)) ++ exportStream env files := by
  simp [exportStream]

theorem processFiles_buckets (fuel : Nat) (env : Env) (files : List String) (acc : BuildAcc) :
    (files.foldl (Process.processFile fuel env) acc).loadB
        = (exportStream env files).foldl
            (fun m x => addToBuckets m x.2.loadPriority (Step.loadFn x.1 x.2)) acc.loadB ∧
    (files.foldl (Process.processFile fuel env) acc).startB
        = (exportStream env files).foldl
            (fun m x => addToBuckets m x.2.startPriority (Step.startFn x.1 x.2)) acc.startB ∧
    (files.foldl (Process.processFile fuel env) acc).stopB
        = (exportStream env files).foldl
            (fun m x => addToBuckets m x.2.stopPriority (Step.stopFn x.1 x.2)) acc.stopB := by
  induction files generalizing acc with
  | nil => exact ⟨rfl, rfl, rfl⟩
  | cons f files ih =>
    simp only [List.foldl_cons, exportStream_cons, List.foldl_append, List.foldl_map]
    obtain ⟨h1, h2, h3⟩ := ih (Process.processFile fuel env acc f)
    obtain ⟨g1, g2, g3⟩ := processFile_buckets fuel env acc f
    exact ⟨by rw [h1, g1], by rw [h2, g2], by rw [h3, g3]⟩

theorem regLookup_eq_none_iff (R : List (String × Initializer)) (n : String) :
    regLookup R n = none ↔ n ∉ R.map Prod.fst := by
  induction R with
  | nil => simp [regLookup]
  | cons p R ih =>
    obtain ⟨m, i⟩ := p
    by_cases h : n = m <;> simp [regLookup, h, ih]

theorem regLookup_append_none (R S : List (String × Initializer)) (n : String)
    (h : regLookup R n = none) : regLookup (R ++ S) n = regLookup S n := by
  induction R with
  | nil => simp
  | cons p R ih =>
    obtain ⟨m, i⟩ := p
    by_cases hn : n = m
    · simp [regLookup, hn] at h
    · simp only [regLookup, hn, if_false, List.cons_append] at h ⊢
      exact ih h

theorem processExport_fresh (fuel : Nat) (file : String) (ini : Initializer) (acc : BuildAcc)
    (hnew : regLookup acc.state.initializers ini.name = none)
    (hval : ini.validate = none) :
    (Process.processExport fuel file ini acc).state
      = { acc.state with initializers := acc.state.initializers ++ [(ini.name, ini)] } ∧
    (Process.processExport fuel file ini acc).trace
      = acc.trace ++ [Event.validateCalled ini.name file] := by
  unfold Process.processExport
  simp [hnew, hval]

theorem processExport_collision (fuel : Nat) (file : String) (ini : Initializer) (acc : BuildAcc)
    (hdup : (regLookup acc.state.initializers ini.name).isSome = true) :
    (Process.processExport fuel file ini acc).state = acc.state ∧
    (Process.processExport fuel file ini acc).trace
      = acc.trace ++ [Event.log ("an existing initializer with the same name `" ++ ini.name ++
          "` will be overridden by the file " ++ file) "warning" none] := by
  unfold Process.processExport
  simp [hdup]

theorem processExports_registry (fuel : Nat) (file : String) (mods : List Initializer)
    (acc : BuildAcc)
    (hrun : acc.state.running = false)
    (hnodup : (mods.map Initializer.name).Nodup)
    (hfresh : ∀ ini ∈ mods, regLookup acc.state.initializers ini.name = none)
    (hval : ∀ ini ∈ mods, ini.validate = none) :
    (mods.foldl (fun a ini => Process.processExport fuel file ini a) acc).state.initializers
        = acc.state.initializers ++ mods.map (fun ini => (ini.name, ini)) ∧
    (mods.foldl (fun a ini => Process.processExport fuel file ini a) acc).state.running = false ∧
    ∃ u, (mods.foldl (fun a ini => Process.processExport fuel file ini a) acc).trace
        = acc.trace ++ u ∧ ∀ e ∈ u, isWarnLog e = false := by
  induction mods generalizing acc with
  | nil => exact ⟨by simp, hrun, [], by simp, by simp⟩
  | cons ini mods ih =>
    simp only [List.foldl_cons]
    have hnew := hfresh ini (List.mem_cons_self ini mods)
    have hv := hval ini (List.mem_cons_self ini mods)
    obtain ⟨hstate, htrace⟩ := processExport_fresh fuel file ini acc hnew hv
    have hrun' : (Process.processExport fuel file ini acc).state.running = false := by
      rw [hstate]
      exact hrun
    have hfresh' : ∀ x ∈ mods,
        regLookup (Process.processExport fuel file ini acc).state.initializers x.name = none := by
      intro x hx
      rw [hstate]
      simp only
      rw [regLookup_eq_none_iff]
      simp only [List.map_append, List.mem_append]
      rintro (hmem | hmem)
      · exact absurd hmem ((regLookup_eq_none_iff _ _).1 (hfresh x (List.mem_cons_of_mem ini hx)))
      · simp only [List.map_cons, List.map_nil, List.mem_singleton] at hmem
        have : ini.name ∉ mods.map Initializer.name := (List.nodup_cons.1 hnodup).1
        exact this (hmem ▸ List.mem_map_of_mem Initializer.name hx)
    obtain ⟨r1, r2, u, ru, rw⟩ := ih (Process.processExport fuel file ini acc) hrun'
      (List.nodup_cons.1 hnodup).2 hfresh' (fun x hx => hval x (List.mem_cons_of_mem ini hx))
    refine ⟨?_, r2, Event.validateCalled ini.name file :: u, ?_, ?_⟩
    · rw [r1, hstate]
      simp
    · rw [ru, htrace]
      simp
    · intro e he
      rcases List.mem_cons.1 he with rfl | he
      · rfl
      · exact rw e he

theorem processExport_running (fuel : Nat) (file : String) (ini : Initializer) (acc : BuildAcc)
    (h : acc.state.running = false) :
    (Process.processExport fuel file ini acc).state.running = false := by
  unfold Process.processExport
  by_cases hdup : (regLookup acc.state.initializers ini.name).isSome
  · simpa [hdup]
  · cases hv : ini.validate with
    | none => simpa [hdup, hv]
    | some err =>
      rcases hf : Process.fatalError fuel (FatalArg.single err) file acc.state
        (acc.trace ++ [Event.validateCalled ini.name file]) with ⟨s', t'⟩
      have := fatalError_not_running fuel (FatalArg.single err) file acc.state
        (acc.trace ++ [Event.validateCalled ini.name file]) h
      rw [hf] at this
      simp only at this
      simp [hdup, hv, hf, this, h]

theorem processExports_running (fuel : Nat) (file : String) (mods : List Initializer)
    (acc : BuildAcc) (h : acc.state.running = false) :
    (mods.foldl (fun a ini => Process.processExport fuel file ini a) acc).state.running = false := by
  induction mods generalizing acc with
  | nil => exact h
  | cons ini mods ih =>
    simp only [List.foldl_cons]
    exact ih _ (processExport_running fuel file ini acc h)

theorem processFile_running (fuel : Nat) (env : Env) (acc : BuildAcc) (file : String)
    (h : acc.state.running = false) :
    (Process.processFile fuel env acc file).state.running = false := by
  unfold Process.processFile
  by_cases hmods : (env.modules file).isEmpty
  · rcases hf : Process.fatalError fuel
        (FatalArg.single ("no exported initializers found in " ++ file)) file
        acc.state acc.trace with ⟨s', t'⟩
    have := fatalError_not_running fuel
        (FatalArg.single ("no exported initializers found in " ++ file)) file
        acc.state acc.trace h
    rw [hf] at this
    simp only at this
    simp only [hmods, if_true, hf]
    exact processExports_running fuel file (env.modules file) _ (by simpa [this])
  · simp only [hmods, if_false]
    exact processExports_running fuel file (env.modules file) acc h

theorem processFiles_running (fuel : Nat) (env : Env) (files : List String) (acc : BuildAcc)
    (h : acc.state.running = false) :
    (files.foldl (Process.processFile fuel env) acc).state.running = false := by
  induction files generalizing acc with
  | nil => exact h
  | cons f files ih =>
    simp only [List.foldl_cons]
    exact ih _ (processFile_running fuel env acc f h)

theorem processFile_registry (fuel : Nat) (env : Env) (acc : BuildAcc) (file : String)
    (hrun : acc.state.running = false)
    (hnodup : ((env.modules file).map Initializer.name).Nodup)
    (hfresh : ∀ ini ∈ env.modules file, regLookup acc.state.initializers ini.name = none)
    (hval : ∀ ini ∈ env.modules file, ini.validate = none) :
    (Process.processFile fuel env acc file).state.initializers
        = acc.state.initializers ++ (env.modules file).map (fun ini => (ini.name, ini)) ∧
    (Process.processFile fuel env acc file).state.running = false ∧
    ∃ u, (Process.processFile fuel env acc file).trace = acc.trace ++ u ∧
      ∀ e ∈ u, isWarnLog e = false := by
  unfold Process.processFile
  by_cases hmods : (env.modules file).isEmpty
  · rcases hf : Process.fatalError fuel
        (FatalArg.single ("no exported initializers found in " ++ file)) file
        acc.state acc.trace with ⟨s', t'⟩
    have hstate := fatalError_not_running fuel
        (FatalArg.single ("no exported initializers found in " ++ file)) file
        acc.state acc.trace hrun
    rw [hf] at hstate
    simp only at hstate
    obtain ⟨u, hu, _, hwarn⟩ := (stop_fatal_events fuel).2
        (FatalArg.single ("no exported initializers found in " ++ file)) file
        acc.state acc.trace
    rw [hf] at hu
    simp only at hu
    have hempty : env.modules file = [] := List.isEmpty_iff.1 hmods
    simp only [hmods, if_true, hf, hempty, List.foldl_nil, List.map_nil, List.append_nil]
    exact ⟨by simp [hstate], by simp [hstate, hrun], u, by simp [hu], hwarn⟩
  · simp only [hmods, if_false]
    exact processExports_registry fuel file (env.modules file) acc hrun hnodup hfresh hval

theorem processFiles_registry (fuel : Nat) (env : Env) (files : List String) (acc : BuildAcc)
    (hrun : acc.state.running = false)
    (hnodup : ((exportStream env files).map (fun x => x.2.name)).Nodup)
    (hfresh : ∀ x ∈ exportStream env files, regLookup acc.state.initializers x.2.name = none)
    (hval : ∀ x ∈ exportStream env files, x.2.validate = none) :
    (files.foldl (Process.processFile fuel env) acc).state.initializers
        = acc.state.initializers ++ (exportStream env files).map (fun x => (x.2.name, x.2)) ∧
    ∃ u, (files.foldl (Process.processFile fuel env) acc).trace = acc.trace ++ u ∧
      ∀ e ∈ u, isWarnLog e = false := by
  induction files generalizing acc with
  | nil => exact ⟨by simp [exportStream], [], by simp, by simp⟩
  | cons f files ih =>
    rw [exportStream_cons] at hnodup hfresh hval
    simp only [List.map_append, List.map_map] at hnodup
    have hnodup1 : ((env.modules f).map Initializer.name).Nodup := by
      have := (List.nodup_append.1 hnodup).1
      simpa [Function.comp] using this
    have hnodup2 : ((exportStream env files).map (fun x => x.2.name)).Nodup :=
      (List.nodup_append.1 hnodup).2.1
    have hdisj := (List.nodup_append.1 hnodup).2.2
    obtain ⟨r1, r2, u1, ru1, rw1⟩ := processFile_registry fuel env acc f hrun hnodup1
      (fun ini hi => hfresh (f, ini) (List.mem_append_left _ (List.mem_map_of_mem _ hi)))
      (fun ini hi => hval (f, ini) (List.mem_append_left _ (List.mem_map_of_mem _ hi)))
    have hfresh' : ∀ x ∈ exportStream env files,
        regLookup (Process.processFile fuel env acc f).state.initializers x.2.name = none := by
      intro x hx
      rw [r1, regLookup_eq_none_iff]
      simp only [List.map_append, List.mem_append]
      rintro (hmem | hmem)
      · exact absurd hmem ((regLookup_eq_none_iff _ _).1
          (hfresh x (List.mem_append_right _ hx)))
      · simp only [List.map_map] at hmem
        obtain ⟨ini, hini, hname⟩ := List.mem_map.1 hmem
        have hxs : x.2.name ∈ (exportStream env files).map (fun x => x.2.name) :=
          List.mem_map_of_mem _ hx
        have : (fun x => x.2.name) ((f, ini) : String × Initializer)
            = ((ini.name, ini) : String × Initializer).1 := rfl
        exact hdisj (a := x.2.name) (by
          rw [← hname]
          exact List.mem_map_of_mem _ hini) hxs
    simp only [List.foldl_cons]
    obtain ⟨q1, u2, qu2, qw2⟩ := ih (Process.processFile fuel env acc f) r2 hnodup2 hfresh'
      (fun x hx => hval x (List.mem_append_right _ hx))
    refine ⟨?_, u1 ++ u2, ?_, ?_⟩
    · rw [q1, r1]
      simp [exportStream_cons, List.map_map, Function.comp]
    · rw [qu2, ru1, List.append_assoc]
    · intro e he
      rcases List.mem_append.1 he with he | he
      · exact rw1 e he
      · exact qw2 e he

theorem waterfall_wrapper_state (l : List Step) (s : ProcState) (t : List Event)
    (h : ∀ st ∈ l, isWrapper st = true) :
    (waterfall l s t).1 = s := by
  induction l generalizing t with
  | nil => rfl
  | cons st rest ih =>
    have hw := execStep_wrapper st s t (h st (List.mem_cons_self st rest))
    cases herr : stepError st with
    | none =>
      rw [waterfall_cons_ok st rest s t herr, hw]
      exact ih _ (fun x hx => h x (List.mem_cons_of_mem st hx))
    | some e =>
      rw [waterfall_cons_err st rest s t e herr]

/-! ## Lemmas: `initialize()` as a whole -/

theorem initializeP_lists (fuel : Nat) (env : Env) (s : ProcState) (t : List Event)
    (files : List String) (hdisc : discoverFiles env s.plugins = Except.ok files) :
    (Process.initializeP fuel env s t).1.loadInitializers
        = flattenOrderedInitializer (bucketize (fun x => x.2.loadPriority)
            (fun x => Step.loadFn x.1 x.2) (exportStream env files)) ∧
    (Process.initializeP fuel env s t).1.startInitializers
        = flattenOrderedInitializer (bucketize (fun x => x.2.startPriority)
            (fun x => Step.startFn x.1 x.2) (exportStream env files)) ∧
    (s.running = false →
      (Process.initializeP fuel env s t).1.stopInitializers
        = flattenOrderedInitializer (bucketize (fun x => x.2.stopPriority)
            (fun x => Step.stopFn x.1 x.2) (exportStream env files))) := by
  have hbuck := processFiles_buckets fuel env files ⟨s, [], [], [], t⟩
  have hload : (files.foldl (Process.processFile fuel env) ⟨s, [], [], [], t⟩).loadB
      = bucketize (fun x => x.2.loadPriority) (fun x => Step.loadFn x.1 x.2)
          (exportStream env files) := hbuck.1
  have hstart : (files.foldl (Process.processFile fuel env) ⟨s, [], [], [], t⟩).startB
      = bucketize (fun x => x.2.startPriority) (fun x => Step.startFn x.1 x.2)
          (exportStream env files) := hbuck.2.1
  have hstop : (files.foldl (Process.processFile fuel env) ⟨s, [], [], [], t⟩).stopB
      = bucketize (fun x => x.2.stopPriority) (fun x => Step.stopFn x.1 x.2)
          (exportStream env files) := hbuck.2.2
  simp only [Process.initializeP, hdisc]
  rcases hw : waterfall
      (schedState (files.foldl (Process.processFile fuel env) ⟨s, [], [], [], t⟩)).loadInitializers
      (schedState (files.foldl (Process.processFile fuel env) ⟨s, [], [], [], t⟩))
      (files.foldl (Process.processFile fuel env) ⟨s, [], [], [], t⟩).trace
    with ⟨s', t', err⟩
  have hp := waterfall_preserve
      (schedState (files.foldl (Process.processFile fuel env) ⟨s, [], [], [], t⟩)).loadInitializers
      (schedState (files.foldl (Process.processFile fuel env) ⟨s, [], [], [], t⟩))
      (files.foldl (Process.processFile fuel env) ⟨s, [], [], [], t⟩).trace
  rw [hw] at hp
  simp only at hp
  have hsl : (schedState (files.foldl (Process.processFile fuel env) ⟨s, [], [], [], t⟩)).loadInitializers
      = flattenOrderedInitializer
          ((files.foldl (Process.processFile fuel env) ⟨s, [], [], [], t⟩).loadB) := rfl
  have hss : (schedState (files.foldl (Process.processFile fuel env) ⟨s, [], [], [], t⟩)).startInitializers
      = flattenOrderedInitializer
          ((files.foldl (Process.processFile fuel env) ⟨s, [], [], [], t⟩).startB) := rfl
  have hsst : (schedState (files.foldl (Process.processFile fuel env) ⟨s, [], [], [], t⟩)).stopInitializers
      = flattenOrderedInitializer
          ((files.foldl (Process.processFile fuel env) ⟨s, [], [], [], t⟩).stopB) := rfl
  cases err with
  | none =>
    refine ⟨?_, ?_, fun _ => ?_⟩
    · simp only
      rw [hp.2.1, hsl, hload]
    · simp only
      rw [hp.2.2.1, hss, hstart]
    · simp only
      rw [hp.2.2.2.1, hsst, hstop]
  | some e =>
    have hfp := (stop_fatal_preserve fuel).2 (FatalArg.single e) "initialize" s' t'
    refine ⟨?_, ?_, fun hrun => ?_⟩
    · simp only
      rw [hfp.1, hp.2.1, hsl, hload]
    · simp only
      rw [hfp.2.1, hp.2.2.1, hss, hstart]
    · have hrun' : s'.running = false := by
        rw [hp.1]
        have : (files.foldl (Process.processFile fuel env) ⟨s, [], [], [], t⟩).state.running = false :=
          processFiles_running fuel env files _ hrun
        exact this
      have hstate : (Process.fatalError fuel (FatalArg.single e) "initialize" s' t').1 = s' :=
        fatalError_not_running fuel (FatalArg.single e) "initialize" s' t' hrun'
      simp only
      rw [hstate, hp.2.2.2.1, hsst, hstop]

theorem initializeP_registry (fuel : Nat) (env : Env) (s : ProcState) (t : List Event)
    (files : List String)
    (hreg : s.initializers = [])
    (hrun : s.running = false)
    (hdisc : discoverFiles env s.plugins = Except.ok files)
    (hnodup : ((exportStream env files).map (fun x => x.2.name)).Nodup)
    (hval : ∀ x ∈ exportStream env files, x.2.validate = none) :
    (Process.initializeP fuel env s t).1.initializers
        = (exportStream env files).map (fun x => (x.2.name, x.2)) ∧
    ∃ u, (Process.initializeP fuel env s t).2.1 = t ++ u ∧
      ∀ e ∈ u, isWarnLog e = false := by
  have hfresh : ∀ x ∈ exportStream env files,
      regLookup s.initializers x.2.name = none := by
    intro x _
    rw [hreg]
    rfl
  obtain ⟨hregA, u1, hu1, hw1⟩ :=
    processFiles_registry fuel env files ⟨s, [], [], [], t⟩ hrun hnodup hfresh hval
  have hrunA : (files.foldl (Process.processFile fuel env) ⟨s, [], [], [], t⟩).state.running = false :=
    processFiles_running fuel env files _ hrun
  have hwrapper : ∀ st ∈ (schedState (files.foldl (Process.processFile fuel env)
      ⟨s, [], [], [], t⟩)).loadInitializers, isWrapper st = true := by
    intro st hst
    have hload := (processFiles_buckets fuel env files ⟨s, [], [], [], t⟩).1
    have : st ∈ flattenOrderedInitializer (bucketize (fun x => x.2.loadPriority)
        (fun x => Step.loadFn x.1 x.2) (exportStream env files)) := by
      have heq : (schedState (files.foldl (Process.processFile fuel env)
          ⟨s, [], [], [], t⟩)).loadInitializers
          = flattenOrderedInitializer ((files.foldl (Process.processFile fuel env)
              ⟨s, [], [], [], t⟩).loadB) := rfl
      rw [heq, hload] at hst
      exact hst
    obtain ⟨x, _, rfl, _⟩ := mem_flatten_bucketize _ _ _ _ this
    rfl
  simp only [Process.initializeP, hdisc]
  rcases hw : waterfall
      (schedState (files.foldl (Process.processFile fuel env) ⟨s, [], [], [], t⟩)).loadInitializers
      (schedState (files.foldl (Process.processFile fuel env) ⟨s, [], [], [], t⟩))
      (files.foldl (Process.processFile fuel env) ⟨s, [], [], [], t⟩).trace
    with ⟨s', t', err⟩
  have hstate := waterfall_wrapper_state
      (schedState (files.foldl (Process.processFile fuel env) ⟨s, [], [], [], t⟩)).loadInitializers
      (schedState (files.foldl (Process.processFile fuel env) ⟨s, [], [], [], t⟩))
      (files.foldl (Process.processFile fuel env) ⟨s, [], [], [], t⟩).trace hwrapper
  rw [hw] at hstate
  simp only at hstate
  obtain ⟨u2, hu2, _, hw2, _, _⟩ := waterfall_trace
      (schedState (files.foldl (Process.processFile fuel env) ⟨s, [], [], [], t⟩)).loadInitializers
      (schedState (files.foldl (Process.processFile fuel env) ⟨s, [], [], [], t⟩))
      (files.foldl (Process.processFile fuel env) ⟨s, [], [], [], t⟩).trace
  rw [hw] at hu2
  simp only at hu2
  have hregSched : (schedState (files.foldl (Process.processFile fuel env)
      ⟨s, [], [], [], t⟩)).initializers
      = (exportStream env files).map (fun x => (x.2.name, x.2)) := by
    have : (schedState (files.foldl (Process.processFile fuel env)
        ⟨s, [], [], [], t⟩)).initializers
        = (files.foldl (Process.processFile fuel env) ⟨s, [], [], [], t⟩).state.initializers := rfl
    rw [this, hregA]
    simp [hreg]
  cases err with
  | none =>
    refine ⟨?_, u1 ++ u2, ?_, ?_⟩
    · simp only
      rw [hstate, hregSched]
    · simp only
      rw [hu2, hu1]
      simp
    · intro e he
      rcases List.mem_append.1 he with he | he
      · exact hw1 e he
      · exact hw2 e he
  | some e =>
    have hruns' : s'.running = false := by
      rw [hstate]
      exact hrunA
    have hfstate : (Process.fatalError fuel (FatalArg.single e) "initialize" s' t').1 = s' :=
      fatalError_not_running fuel (FatalArg.single e) "initialize" s' t' hruns'
    obtain ⟨u3, hu3, _, hw3⟩ := (stop_fatal_events fuel).2 (FatalArg.single e) "initialize" s' t'
    refine ⟨?_, u1 ++ u2 ++ u3, ?_, ?_⟩
    · simp only
      rw [hfstate, hstate, hregSched]
    · simp only
      rw [hu3, hu2, hu1]
      simp
    · intro e he
      rcases List.mem_append.1 he with he | he
      · rcases List.mem_append.1 he with he | he
        · exact hw1 e he
        · exact hw2 e he
      · exact hw3 e he

theorem stepRan_mem_stepEvents (st st' : Step) (h : Event.stepRan st' ∈ stepEvents st) :
    st' = st := by
  cases st with
  | loadFn f i =>
    cases hm : i.initializeM with
    | none => simp [stepEvents, hm] at h; exact h
    | some o => cases o <;> simp [stepEvents, hm] at h <;> exact h
  | startFn f i =>
    cases hm : i.startM with
    | none => simp [stepEvents, hm] at h; exact h
    | some o => cases o <;> simp [stepEvents, hm] at h <;> exact h
  | stopFn f i =>
    cases hm : i.stopM with
    | none => simp [stepEvents, hm] at h; exact h
    | some o => cases o <;> simp [stepEvents, hm] at h <;> exact h
  | startTerminal => simp [stepEvents] at h; exact h
  | stopTerminal => simp [stepEvents] at h; exact h

theorem count_stepRan_stepEvents (st st' : Step) :
    (stepEvents st).count (Event.stepRan st') = if st' = st then 1 else 0 := by
  cases st with
  | loadFn f i =>
    cases hm : i.initializeM with
    | none => by_cases hst : st' = Step.loadFn f i <;> simp [stepEvents, hm, List.count_cons, hst]
    | some o =>
      cases o <;> by_cases hst : st' = Step.loadFn f i <;>
        simp [stepEvents, hm, List.count_cons, hst]
  | startFn f i =>
    cases hm : i.startM with
    | none => by_cases hst : st' = Step.startFn f i <;> simp [stepEvents, hm, List.count_cons, hst]
    | some o =>
      cases o <;> by_cases hst : st' = Step.startFn f i <;>
        simp [stepEvents, hm, List.count_cons, hst]
  | stopFn f i =>
    cases hm : i.stopM with
    | none => by_cases hst : st' = Step.stopFn f i <;> simp [stepEvents, hm, List.count_cons, hst]
    | some o =>
      cases o <;> by_cases hst : st' = Step.stopFn f i <;>
        simp [stepEvents, hm, List.count_cons, hst]
  | startTerminal => by_cases hst : st' = Step.startTerminal <;> simp [stepEvents, hst]
  | stopTerminal => by_cases hst : st' = Step.stopTerminal <;> simp [stepEvents, hst]

theorem count_stepRan_flatMap (l : List Step) (st : Step) :
    (l.flatMap stepEvents).count (Event.stepRan st) = l.count st := by
  induction l with
  | nil => simp
  | cons x l ih =>
    simp only [List.flatMap_cons, List.count_append, ih, count_stepRan_stepEvents,
      List.count_cons]
    by_cases h : st = x
    · simp [h]
      omega
    · simp [h]
      exact fun hh => h hh.symm

theorem count_stopCalled_stepEvents (st : Step) :
    (stepEvents st).count Event.stopCalled = 0 := by
  cases st with
  | loadFn f i => cases hm : i.initializeM with
    | none => simp [stepEvents, hm]
    | some o => cases o <;> simp [stepEvents, hm]
  | startFn f i => cases hm : i.startM with
    | none => simp [stepEvents, hm]
    | some o => cases o <;> simp [stepEvents, hm]
  | stopFn f i => cases hm : i.stopM with
    | none => simp [stepEvents, hm]
    | some o => cases o <;> simp [stepEvents, hm]
  | startTerminal => simp [stepEvents]
  | stopTerminal => simp [stepEvents]

theorem count_stopCalled_flatMap (l : List Step) :
    (l.flatMap stepEvents).count Event.stopCalled = 0 := by
  induction l with
  | nil => simp
  | cons x l ih => simp [List.flatMap_cons, List.count_append, ih, count_stopCalled_stepEvents]

theorem count_exited_stepEvents (st : Step) (c : Nat) :
    (stepEvents st).count (Event.exited c) = 0 := by
  cases st with
  | loadFn f i => cases hm : i.initializeM with
    | none => simp [stepEvents, hm]
    | some o => cases o <;> simp [stepEvents, hm]
  | startFn f i => cases hm : i.startM with
    | none => simp [stepEvents, hm]
    | some o => cases o <;> simp [stepEvents, hm]
  | stopFn f i => cases hm : i.stopM with
    | none => simp [stepEvents, hm]
    | some o => cases o <;> simp [stepEvents, hm]
  | startTerminal => simp [stepEvents]
  | stopTerminal => simp [stepEvents]

theorem count_exited_flatMap (l : List Step) (c : Nat) :
    (l.flatMap stepEvents).count (Event.exited c) = 0 := by
  induction l with
  | nil => simp
  | cons x l ih => simp [List.flatMap_cons, List.count_append, ih, count_exited_stepEvents]

theorem collectPluginFiles_error (env : Env) (a : List (String × String)) (n p : String)
    (b : List (String × String))
    (ha : ∀ x ∈ a, env.fsExists x.2 = true) (hp : env.fsExists p = false) :
    collectPluginFiles env (a ++ (n, p) :: b)
      = Except.error ("plugin path does not exist: " ++ p) := by
  induction a with
  | nil => simp [collectPluginFiles, hp]
  | cons x a ih =>
    obtain ⟨n', p'⟩ := x
    have hx : env.fsExists p' = true := ha (n', p') (List.mem_cons_self _ _)
    simp only [List.cons_append, collectPluginFiles, hx, if_true]
    have happ : a.append ((n, p) :: b) = a ++ (n, p) :: b := rfl
    rw [happ, ih (fun y hy => ha y (List.mem_cons_of_mem _ hy))]

theorem discoverFiles_error (env : Env) (a : List (String × String)) (n p : String)
    (b : List (String × String))
    (ha : ∀ x ∈ a, env.fsExists x.2 = true) (hp : env.fsExists p = false) :
    discoverFiles env (a ++ (n, p) :: b)
      = Except.error ("plugin path does not exist: " ++ p) := by
  unfold discoverFiles
  rw [collectPluginFiles_error env a n p b ha hp]

/-! ## The claims -/

/-- C1: for every registered initializer set and priority assignment,
each flattened phase list (load, start, stop) produced by
`initialize()` is non-decreasing in the phase's priority, and steps
sharing a priority appear in discovery order (the filter equation:
the subsequence at priority `k` is exactly the discovery-ordered stream
restricted to `k`); concretely, with A at `loadPriority = 1`, B at
`loadPriority = 2` and C at `loadPriority = 1` discovered after A, the
load order is [A, C, B]. -/
theorem claim_C1_phase_order :
    (∀ (fuel : Nat) (env : Env) (s : ProcState) (t : List Event) (files : List String),
      discoverFiles env s.plugins = Except.ok files → s.running = false →
      ((Process.initializeP fuel env s t).1.loadInitializers.Pairwise
          (fun a b => stepLoadPriority a ≤ stepLoadPriority b) ∧
        ∀ k : Int, 0 < k →
          (Process.initializeP fuel env s t).1.loadInitializers.filter
              (fun st => decide (stepLoadPriority st = k))
            = ((exportStream env files).filter (fun x => decide (x.2.loadPriority = k))).map
                (fun x => Step.loadFn x.1 x.2)) ∧
      ((Process.initializeP fuel env s t).1.startInitializers.Pairwise
          (fun a b => stepStartPriority a ≤ stepStartPriority b) ∧
        ∀ k : Int, 0 < k →
          (Process.initializeP fuel env s t).1.startInitializers.filter
              (fun st => decide (stepStartPriority st = k))
            = ((exportStream env files).filter (fun x => decide (x.2.startPriority = k))).map
                (fun x => Step.startFn x.1 x.2)) ∧
      ((Process.initializeP fuel env s t).1.stopInitializers.Pairwise
          (fun a b => stepStopPriority a ≤ stepStopPriority b) ∧
        ∀ k : Int, 0 < k →
          (Process.initializeP fuel env s t).1.stopInitializers.filter
              (fun st => decide (stepStopPriority st = k))
            = ((exportStream env files).filter (fun x => decide (x.2.stopPriority = k))).map
                (fun x => Step.stopFn x.1 x.2))) ∧
    (Process.initializeP 3 envABC ProcState.fresh []).1.loadInitializers.map stepName
        = ["A", "C", "B"] := by
  constructor
  · intro fuel env s t files hdisc hrun
    obtain ⟨hload, hstart, hstop⟩ := initializeP_lists fuel env s t files hdisc
    have hstop' := hstop hrun
    refine ⟨⟨?_, ?_⟩, ⟨?_, ?_⟩, ⟨?_, ?_⟩⟩
    · rw [hload]
      exact flatten_bucketize_pairwise _ _ stepLoadPriority _ (fun x _ => rfl)
    · intro k hk
      rw [hload]
      exact flatten_bucketize_filter (fun x => x.2.loadPriority) (fun x => Step.loadFn x.1 x.2)
        stepLoadPriority (exportStream env files) (fun x _ => rfl) k hk
    · rw [hstart]
      exact flatten_bucketize_pairwise _ _ stepStartPriority _ (fun x _ => rfl)
    · intro k hk
      rw [hstart]
      exact flatten_bucketize_filter (fun x => x.2.startPriority) (fun x => Step.startFn x.1 x.2)
        stepStartPriority (exportStream env files) (fun x _ => rfl) k hk
    · rw [hstop']
      exact flatten_bucketize_pairwise _ _ stepStopPriority _ (fun x _ => rfl)
    · intro k hk
      rw [hstop']
      exact flatten_bucketize_filter (fun x => x.2.stopPriority) (fun x => Step.stopFn x.1 x.2)
        stepStopPriority (exportStream env files) (fun x _ => rfl) k hk
  · rfl

/-- Witness for C1 at the concrete three-initializer scenario. -/
theorem claim_C1_phase_order_witness :
    (Process.initializeP 2 envABC ProcState.fresh []).1.loadInitializers.Pairwise
        (fun a b => stepLoadPriority a ≤ stepLoadPriority b) :=
  ((claim_C1_phase_order.1 2 envABC ProcState.fresh [] ["fA", "fB", "fC"]
    (by rfl) (by rfl)).1).1

/-- C2: an initializer whose `loadPriority` is zero or negative
contributes no step to the flattened load list built by `initialize()` —
every step of the load list wraps an instance with strictly positive
`loadPriority` — and symmetrically for the start and stop lists. -/
theorem claim_C2_nonpositive_priority_excluded (fuel : Nat) (env : Env) (s : ProcState)
    (t : List Event) (files : List String)
    (hdisc : discoverFiles env s.plugins = Except.ok files) (hrun : s.running = false) :
    (∀ st ∈ (Process.initializeP fuel env s t).1.loadInitializers,
      ∃ f ini, st = Step.loadFn f ini ∧ 0 < ini.loadPriority) ∧
    (∀ st ∈ (Process.initializeP fuel env s t).1.startInitializers,
      ∃ f ini, st = Step.startFn f ini ∧ 0 < ini.startPriority) ∧
    (∀ st ∈ (Process.initializeP fuel env s t).1.stopInitializers,
      ∃ f ini, st = Step.stopFn f ini ∧ 0 < ini.stopPriority) := by
  obtain ⟨hload, hstart, hstop⟩ := initializeP_lists fuel env s t files hdisc
  have hstop' := hstop hrun
  refine ⟨?_, ?_, ?_⟩
  · intro st hst
    rw [hload] at hst
    obtain ⟨x, _, rfl, hk⟩ := mem_flatten_bucketize _ _ _ _ hst
    exact ⟨x.1, x.2, rfl, hk⟩
  · intro st hst
    rw [hstart] at hst
    obtain ⟨x, _, rfl, hk⟩ := mem_flatten_bucketize _ _ _ _ hst
    exact ⟨x.1, x.2, rfl, hk⟩
  · intro st hst
    rw [hstop'] at hst
    obtain ⟨x, _, rfl, hk⟩ := mem_flatten_bucketize _ _ _ _ hst
    exact ⟨x.1, x.2, rfl, hk⟩

/-- Witness for C2: in the environment with the opted-out initializer
`D` (`loadPriority = 0`, `startPriority = -3`, `stopPriority = 0`),
every scheduled step has a strictly positive priority. -/
theorem claim_C2_nonpositive_priority_excluded_witness :
    (∀ st ∈ (Process.initializeP 2 envD ProcState.fresh []).1.loadInitializers,
      ∃ f ini, st = Step.loadFn f ini ∧ 0 < ini.loadPriority) ∧
    (∀ st ∈ (Process.initializeP 2 envD ProcState.fresh []).1.startInitializers,
      ∃ f ini, st = Step.startFn f ini ∧ 0 < ini.startPriority) ∧
    (∀ st ∈ (Process.initializeP 2 envD ProcState.fresh []).1.stopInitializers,
      ∃ f ini, st = Step.stopFn f ini ∧ 0 < ini.stopPriority) :=
  claim_C2_nonpositive_priority_excluded 2 envD ProcState.fresh [] ["fA", "fD"]
    (by rfl) (by rfl)

/-- C3: when a newly instantiated initializer's name collides with an
already-registered one, the collision warning is logged and the registry
still maps the name to the original instance afterwards; concretely, in
the two-file collision environment the registry keeps the first `X`
(priority 1) and the warning appears in the trace. -/
theorem claim_C3_collision_keeps_original :
    (∀ (fuel : Nat) (file : String) (ini : Initializer) (acc : BuildAcc) (orig : Initializer),
      regLookup acc.state.initializers ini.name = some orig →
      regLookup (Process.processExport fuel file ini acc).state.initializers ini.name
          = some orig ∧
      (Process.processExport fuel file ini acc).trace
          = acc.trace ++ [Event.log ("an existing initializer with the same name `" ++ ini.name ++
              "` will be overridden by the file " ++ file) "warning" none]) ∧
    regLookup (Process.initializeP 3 envDup ProcState.fresh []).1.initializers "X"
        = some iniX1 ∧
    Event.log ("an existing initializer with the same name `X` will be overridden by the file f2")
        "warning" none ∈ (Process.initializeP 3 envDup ProcState.fresh []).2.1 := by
  refine ⟨?_, by rfl, by decide⟩
  intro fuel file ini acc orig hdup
  obtain ⟨hstate, htrace⟩ := processExport_collision fuel file ini acc (by rw [hdup]; rfl)
  constructor
  · rw [hstate, hdup]
  · exact htrace

/-- Witness for C3 applied at a concrete collision. -/
theorem claim_C3_collision_keeps_original_witness :
    regLookup (Process.processExport 2 "f2" iniX2
        ⟨{ ProcState.fresh with initializers := [("X", iniX1)] }, [], [], [], []⟩).state.initializers
      "X" = some iniX1 :=
  (claim_C3_collision_keeps_original.1 2 "f2" iniX2
    ⟨{ ProcState.fresh with initializers := [("X", iniX1)] }, [], [], [], []⟩ iniX1 (by rfl)).1

/-- C9: on a name collision the new instance's `validate()` is never
invoked — the only event added is the warning, and the state (hence the
registry) is untouched — yet the duplicate's wrapper closures are still
bucketed under the new instance's own priorities, so its phase methods
run during the phases; concretely, the duplicate `X` from `f2` is
scheduled in the load list and its load wrapper actually executes,
while no `validate()` call for `f2` ever happens. -/
theorem claim_C9_duplicate_scheduled_without_validate :
    (∀ (fuel : Nat) (file : String) (ini : Initializer) (acc : BuildAcc),
      (regLookup acc.state.initializers ini.name).isSome = true →
      (Process.processExport fuel file ini acc).state = acc.state ∧
      (Process.processExport fuel file ini acc).trace
          = acc.trace ++ [Event.log ("an existing initializer with the same name `" ++ ini.name ++
              "` will be overridden by the file " ++ file) "warning" none] ∧
      (Process.processExport fuel file ini acc).loadB
          = addToBuckets acc.loadB ini.loadPriority (Step.loadFn file ini) ∧
      (Process.processExport fuel file ini acc).startB
          = addToBuckets acc.startB ini.startPriority (Step.startFn file ini) ∧
      (Process.processExport fuel file ini acc).stopB
          = addToBuckets acc.stopB ini.stopPriority (Step.stopFn file ini) ∧
      (0 < ini.loadPriority →
        Step.loadFn file ini ∈ bucketGet (Process.processExport fuel file ini acc).loadB
          ini.loadPriority)) ∧
    Step.loadFn "f2" iniX2 ∈ (Process.initializeP 3 envDup ProcState.fresh []).1.loadInitializers ∧
    Event.stepRan (Step.loadFn "f2" iniX2) ∈ (Process.initializeP 3 envDup ProcState.fresh []).2.1 ∧
    Event.validateCalled "X" "f2" ∉ (Process.initializeP 3 envDup ProcState.fresh []).2.1 := by
  refine ⟨?_, by decide, by decide, by decide⟩
  intro fuel file ini acc hdup
  obtain ⟨hstate, htrace⟩ := processExport_collision fuel file ini acc hdup
  obtain ⟨hl, hs, hst⟩ := processExport_buckets fuel file ini acc
  refine ⟨hstate, htrace, hl, hs, hst, ?_⟩
  intro hpos
  rw [hl, bucketGet_add]
  simp [hpos]

/-- Witness for C9 applied at a concrete collision. -/
theorem claim_C9_duplicate_scheduled_without_validate_witness :
    (Process.processExport 2 "f2" iniX2
        ⟨{ ProcState.fresh with initializers := [("X", iniX1)] }, [], [], [], []⟩).state
      = { ProcState.fresh with initializers := [("X", iniX1)] } :=
  (claim_C9_duplicate_scheduled_without_validate.1 2 "f2" iniX2
    ⟨{ ProcState.fresh with initializers := [("X", iniX1)] }, [], [], [], []⟩ (by rfl)).1

/-- C5: after a successful `stop()` (its appended terminal step wipes
the registry) the initializer registry is empty; a subsequent
`initialize()` from an empty registry re-registers every discovered
initializer and emits no duplicate-name warning. -/
theorem claim_C5_registry_reset :
    (∀ (fuel : Nat) (s : ProcState) (t : List Event),
      s.running = true → (∀ st ∈ s.stopInitializers, stepError st = none) →
      (Process.stop (fuel + 1) s t).1.initializers = []) ∧
    (∀ (fuel : Nat) (env : Env) (s : ProcState) (t : List Event) (files : List String),
      s.initializers = [] → s.running = false →
      discoverFiles env s.plugins = Except.ok files →
      ((exportStream env files).map (fun x => x.2.name)).Nodup →
      (∀ x ∈ exportStream env files, x.2.validate = none) →
      (Process.initializeP fuel env s t).1.initializers
          = (exportStream env files).map (fun x => (x.2.name, x.2)) ∧
      ∃ u, (Process.initializeP fuel env s t).2.1 = t ++ u ∧
        ∀ e ∈ u, isWarnLog e = false) := by
  constructor
  · intro fuel s t hrun hok
    exact (stop_ok_state fuel s t hrun hok).1
  · intro fuel env s t files hreg hrun hdisc hnodup hval
    exact initializeP_registry fuel env s t files hreg hrun hdisc hnodup hval

/-- Witness for C5: a successful concrete `stop()` empties the registry,
and a following concrete `initialize()` registers all three discovered
initializers. -/
theorem claim_C5_registry_reset_witness :
    (Process.stop 1 sStopOk []).1.initializers = [] ∧
    (Process.initializeP 2 envABC ProcState.fresh []).1.initializers
      = (exportStream envABC ["fA", "fB", "fC"]).map (fun x => (x.2.name, x.2)) :=
  ⟨claim_C5_registry_reset.1 0 sStopOk [] (by rfl) (by decide),
   (claim_C5_registry_reset.2 2 envABC ProcState.fresh [] ["fA", "fB", "fC"]
     (by rfl) (by rfl) (by rfl) (by decide) (by decide)).1⟩

/-- C6 counterexample: `stop()` called while `shuttingDown` is true
emits no log call at all — the trace gains only the entry marker — so
the claim's "emits a logged ignorable note" is false on the code. -/
theorem claim_C6_counterexample :
    Process.stop 2 { ProcState.fresh with shuttingDown := true } []
        = ({ ProcState.fresh with shuttingDown := true }, [Event.stopCalled]) ∧
    (Process.stop 2 { ProcState.fresh with shuttingDown := true } []).2.filter isLogEvent
        = [] := by
  constructor
  · rfl
  · rfl

/-- C6 amended: `stop()` on a process that is not running and not
shutting down logs "Cannot shut down actionhero, not running" at error
severity, executes no stop-phase step and does not terminate (state and
trace are exactly as stated); `stop()` while `shuttingDown` is true
executes no stop-phase step, does not terminate, and emits no log at
all — the duplicate signal is silently ignored, only a source comment
marks it. -/
theorem claim_C6_amended (fuel : Nat) (s : ProcState) (t : List Event)
    (h : s.running = false) :
    (s.shuttingDown = false →
      Process.stop (fuel + 1) s t
        = (s, t ++ [Event.stopCalled,
            Event.log "Cannot shut down actionhero, not running" "error" none])) ∧
    (s.shuttingDown = true →
      Process.stop (fuel + 1) s t = (s, t ++ [Event.stopCalled])) := by
  constructor
  · intro hsd
    simp [Process.stop, h, hsd]
  · intro hsd
    simp [Process.stop, h, hsd]

/-- Witness for C6 amended at concrete states. -/
theorem claim_C6_amended_witness :
    Process.stop 3 ProcState.fresh []
        = (ProcState.fresh, [Event.stopCalled,
            Event.log "Cannot shut down actionhero, not running" "error" none]) :=
  (claim_C6_amended 2 ProcState.fresh [] (by rfl)).1 (by rfl)

/-- C7 counterexample: with a registered plugin whose path does not
exist, `initialize()` throws `plugin path does not exist: /bad` and
registers nothing — but the failure is NOT routed through `fatalError`:
the trace stays empty (no `emerg` log, no `stop()` attempt, no
`process.exit`), refuting the claim's escalator/termination part. -/
theorem claim_C7_counterexample :
    Process.initializeP 2 envBadPlugin sBadPlugin []
      = (sBadPlugin, [], some "plugin path does not exist: /bad") := by
  rfl

/-- C7 amended: if the plugin map contains a descriptor whose path does
not exist (all earlier descriptors' paths existing), `initialize()`
rejects with an error citing that exact path, registers no initializer
and leaves the state and trace untouched; in particular `fatalError` is
not invoked and the process is not terminated by this core — the error
propagates to the caller. -/
theorem claim_C7_amended (fuel : Nat) (env : Env) (s : ProcState) (t : List Event)
    (a : List (String × String)) (n p : String) (b : List (String × String))
    (hplug : s.plugins = a ++ (n, p) :: b)
    (ha : ∀ x ∈ a, env.fsExists x.2 = true)
    (hp : env.fsExists p = false) :
    Process.initializeP fuel env s t = (s, t, some ("plugin path does not exist: " ++ p)) := by
  have hdisc := discoverFiles_error env a n p b ha hp
  rw [← hplug] at hdisc
  simp [Process.initializeP, hdisc]

/-- Witness for C7 amended at the concrete missing-path plugin. -/
theorem claim_C7_amended_witness :
    Process.initializeP 1 envBadPlugin sBadPlugin []
      = (sBadPlugin, [], some ("plugin path does not exist: " ++ "/bad")) :=
  claim_C7_amended 1 envBadPlugin sBadPlugin [] [] "badPlugin" "/bad" []
    (by rfl) (by simp) (by rfl)

/-- C8 counterexample: `fatalError` called with a present but EMPTY
error array still acts — the empty array is truthy in JavaScript — it
logs the top-level message, attempts `stop()` and exits with status 1,
refuting the claim that an empty error list performs no logging, no
stop and no termination. -/
theorem claim_C8_counterexample :
    Process.fatalError 2 (FatalArg.array []) "boom" ProcState.fresh []
      = (ProcState.fresh,
         [Event.log "Error with initializer step: \"boom\"" "emerg" none,
          Event.stopCalled,
          Event.log "Cannot shut down actionhero, not running" "error" none,
          Event.slept 1000, Event.exited 1]) := by
  rfl

/-- C8 amended: `fatalError(errors, tag)` acts exactly when the `errors`
argument is non-nullish: it logs the top-level `emerg` message naming
the tag, logs each error of the normalized list (possibly none, for an
empty array), attempts `stop()` and exits with status 1; only when
called with a nullish argument does it log nothing, attempt no stop and
not terminate. -/
theorem claim_C8_amended (fuel : Nat) (arg : FatalArg) (ty : String) (s : ProcState)
    (t : List Event) :
    (arg = FatalArg.nullish → Process.fatalError (fuel + 2) arg ty s t = (s, t)) ∧
    (∀ es, normalizeErrors arg = some es →
      ∃ v, (Process.fatalError (fuel + 2) arg ty s t).2
        = t ++ fatalLogs ty es ++ (Event.stopCalled :: v)
            ++ [Event.slept 1000, Event.exited 1]) := by
  constructor
  · rintro rfl
    exact fatalError_nullish (fuel + 2) ty s t
  · intro es hes
    exact fatalError_acts fuel arg es ty s t hes

/-- Witness for C8 amended with a single concrete error. -/
theorem claim_C8_amended_witness :
    ∃ v, (Process.fatalError 2 (FatalArg.single "boom") "start" ProcState.fresh []).2
      = [] ++ fatalLogs "start" ["boom"] ++ (Event.stopCalled :: v)
          ++ [Event.slept 1000, Event.exited 1] :=
  (claim_C8_amended 0 (FatalArg.single "boom") "start" ProcState.fresh []).2 ["boom"] (by rfl)

/-- C4: if a step of the start list rejects during `start()`, none of
the later start steps executes, `fatalError` is invoked tagged
`"start"` (its top-level `emerg` log naming `"start"` appears),
`stop()` is attempted as cleanup (the stop-entry marker appears), and
the process exits with the non-zero status 1. -/
theorem claim_C4_start_step_failure (fuel : Nat) (env : Env) (s : ProcState) (t : List Event)
    (pre : List Step) (bad : Step) (post : List Step) (e : String) (st : Step)
    (hinit : s.initialized = true)
    (hdecomp : s.startInitializers = pre ++ bad :: post)
    (hpre : ∀ x ∈ pre, stepError x = none)
    (hbad : stepError bad = some e) :
    Event.log ("Error with initializer step: " ++ jsonStringify "start") "emerg" none
        ∈ (Process.startP (fuel + 2) env s t).2.1 ∧
    Event.stopCalled ∈ (Process.startP (fuel + 2) env s t).2.1 ∧
    Event.exited 1 ∈ (Process.startP (fuel + 2) env s t).2.1 ∧
    (st ∈ post → st ∉ pre → st ≠ bad → st ∉ s.stopInitializers → st ≠ Step.stopTerminal →
      Event.stepRan st ∉ t →
      Event.stepRan st ∉ (Process.startP (fuel + 2) env s t).2.1) := by
  have hlist : (startPushState s).startInitializers
      = pre ++ (bad :: (post ++ [Step.startTerminal])) := by
    show s.startInitializers ++ [Step.startTerminal] = _
    rw [hdecomp]
    simp
  obtain ⟨s1, u, heq, hp1, hp2, hp3, hp4, hp5, hprov, hwarnu, hscu, hexu⟩ :=
    waterfall_ok_prefix pre (bad :: (post ++ [Step.startTerminal])) (startPushState s)
      (startBanner env t) hpre
  have hfull : waterfall (startPushState s).startInitializers (startPushState s)
      (startBanner env t) = (s1, (startBanner env t ++ u) ++ stepEvents bad, some e) := by
    rw [hlist, heq, waterfall_cons_err bad _ s1 _ e hbad]
  have hstart : Process.startP (fuel + 2) env s t
      = ((Process.fatalError (fuel + 2) (FatalArg.single e) "start" s1
            ((startBanner env t ++ u) ++ stepEvents bad)).1,
         (Process.fatalError (fuel + 2) (FatalArg.single e) "start" s1
            ((startBanner env t ++ u) ++ stepEvents bad)).2,
         none) := by
    simp only [Process.startP, hinit, if_true, hfull]
  obtain ⟨v, hv⟩ := fatalError_acts fuel (FatalArg.single e) [e] "start" s1
      ((startBanner env t ++ u) ++ stepEvents bad) (by rfl)
  refine ⟨?_, ?_, ?_, ?_⟩
  · rw [hstart]
    simp only
    rw [hv]
    simp [fatalLogs]
  · rw [hstart]
    simp only
    rw [hv]
    simp
  · rw [hstart]
    simp only
    rw [hv]
    simp
  · intro hpost hnpre hnbad hnstop hnterm hnt
    rw [hstart]
    simp only
    obtain ⟨w, hw, hprovw, _⟩ := (stop_fatal_events (fuel + 2)).2 (FatalArg.single e) "start" s1
      ((startBanner env t ++ u) ++ stepEvents bad)
    rw [hw]
    intro hmem
    rcases List.mem_append.1 hmem with hmem | hmem
    · rcases List.mem_append.1 hmem with hmem | hmem
      · rcases List.mem_append.1 hmem with hmem | hmem
        · unfold startBanner at hmem
          rcases List.mem_append.1 hmem with hmem | hmem
          · exact hnt hmem
          · simp at hmem
        · exact hnpre (hprov st hmem)
      · exact hnbad (stepRan_mem_stepEvents bad st hmem)
    · rcases hprovw st hmem with hmem | hmem
      · have hsi : s1.stopInitializers = s.stopInitializers := by
          rw [hp4]
          rfl
        rw [hsi] at hmem
        exact hnstop hmem
      · exact hnterm hmem

/-- C10: when a stop-phase step rejects, the escalator's best-effort
`stop()` observes `running` already false and `shuttingDown` true and
therefore executes no stop-phase step: the whole shutdown reduces to the
exact state and trace below — each stop step before the failing one runs
exactly once, the steps after it and the terminal step never run,
`stop()` is entered exactly twice (the original call and the cleanup
call), exactly one exit is recorded, and the mutual
`fatalError`/`stop()` invocation does not recurse. -/
theorem claim_C10_stop_failure_no_double_run (fuel : Nat) (s : ProcState) (t : List Event)
    (pre : List Step) (bad : Step) (post : List Step) (e : String)
    (hrun : s.running = true)
    (hdecomp : s.stopInitializers = pre ++ bad :: post)
    (hpre : ∀ x ∈ pre, isWrapper x = true ∧ stepError x = none)
    (hbad : stepError bad = some e) :
    Process.stop (fuel + 3) s t
      = (stopRunState s,
         stopRunTrace t ++ pre.flatMap stepEvents ++ stepEvents bad
           ++ fatalLogs "stop" [e] ++ [Event.stopCalled, Event.slept 1000, Event.exited 1]) ∧
    (Process.stop (fuel + 3) s t).1.running = false ∧
    (Process.stop (fuel + 3) s t).1.shuttingDown = true ∧
    ((Process.stop (fuel + 3) s t).2.drop t.length).count Event.stopCalled = 2 ∧
    ((Process.stop (fuel + 3) s t).2.drop t.length).count (Event.exited 1) = 1 ∧
    (∀ x : Step, ((Process.stop (fuel + 3) s t).2.drop t.length).count (Event.stepRan x)
        = (pre ++ [bad]).count x) := by
  have hlist : (stopRunState s).stopInitializers
      = pre ++ (bad :: (post ++ [Step.stopTerminal])) := by
    rw [stopRunState_stopInits, hdecomp]
    simp
  have h1 := waterfall_wrappers_ok pre (bad :: (post ++ [Step.stopTerminal]))
    (stopRunState s) (stopRunTrace t) hpre
  have hfull : waterfall (stopRunState s).stopInitializers (stopRunState s) (stopRunTrace t)
      = (stopRunState s, (stopRunTrace t ++ pre.flatMap stepEvents) ++ stepEvents bad, some e) := by
    rw [hlist, h1, waterfall_cons_err bad _ _ _ e hbad]
  have hstop3 : Process.stop (fuel + 3) s t
      = Process.fatalError (fuel + 2) (FatalArg.single e) "stop" (stopRunState s)
          ((stopRunTrace t ++ pre.flatMap stepEvents) ++ stepEvents bad) := by
    show Process.stop ((fuel + 2) + 1) s t = _
    simp only [Process.stop, hrun, if_true, hfull]
  have hinner : Process.stop (fuel + 1) (stopRunState s)
      (((stopRunTrace t ++ pre.flatMap stepEvents) ++ stepEvents bad) ++ fatalLogs "stop" [e])
      = (stopRunState s,
         (((stopRunTrace t ++ pre.flatMap stepEvents) ++ stepEvents bad) ++ fatalLogs "stop" [e])
           ++ [Event.stopCalled]) := by
    simp [Process.stop, stopRunState]
  have hfat : Process.fatalError (fuel + 2) (FatalArg.single e) "stop" (stopRunState s)
      ((stopRunTrace t ++ pre.flatMap stepEvents) ++ stepEvents bad)
      = (stopRunState s,
         ((((stopRunTrace t ++ pre.flatMap stepEvents) ++ stepEvents bad) ++ fatalLogs "stop" [e])
           ++ [Event.stopCalled]) ++ [Event.slept 1000, Event.exited 1]) := by
    show Process.fatalError ((fuel + 1) + 1) _ _ _ _ = _
    simp only [Process.fatalError, normalizeErrors, hinner]
  have hmain : Process.stop (fuel + 3) s t
      = (stopRunState s,
         stopRunTrace t ++ pre.flatMap stepEvents ++ stepEvents bad
           ++ fatalLogs "stop" [e] ++ [Event.stopCalled, Event.slept 1000, Event.exited 1]) := by
    rw [hstop3, hfat]
    simp [List.append_assoc]
  have hdropped : (Process.stop (fuel + 3) s t).2.drop t.length
      = [Event.stopCalled, Event.log "stopping process..." "notice" none, Event.slept 100]
          ++ pre.flatMap stepEvents ++ stepEvents bad
          ++ fatalLogs "stop" [e] ++ [Event.stopCalled, Event.slept 1000, Event.exited 1] := by
    rw [hmain]
    simp only [stopRunTrace, List.append_assoc, List.cons_append]
    rw [List.drop_left]
  refine ⟨hmain, by rw [hmain]; rfl, by rw [hmain]; rfl, ?_, ?_, ?_⟩
  · rw [hdropped]
    simp [List.count_append, count_stopCalled_flatMap, count_stopCalled_stepEvents, fatalLogs]
  · rw [hdropped]
    simp [List.count_append, count_exited_flatMap, count_exited_stepEvents, fatalLogs]
  · intro x
    rw [hdropped]
    simp only [List.count_append, count_stepRan_flatMap, count_stepRan_stepEvents]
    have hlogs : (fatalLogs "stop" [e]).count (Event.stepRan x) = 0 := by
      simp [fatalLogs]
    rw [hlogs]
    have hsmall : ([Event.stopCalled, Event.log "stopping process..." "notice" none,
        Event.slept 100] : List Event).count (Event.stepRan x) = 0 := by
      simp
    rw [hsmall]
    have hend : ([Event.stopCalled, Event.slept 1000, Event.exited 1] : List Event).count
        (Event.stepRan x) = 0 := by
      simp
    rw [hend]
    simp [List.count_append, List.count_cons, List.count_singleton]
    by_cases hx : x = bad
    · simp [hx]
    · have hbx : ¬bad = x := fun h => hx h.symm
      simp [hx, hbx]

/-- Witness for C4 at the concrete failing start list: the process
records a non-zero exit and the not-yet-run start step `B` never
executes. -/
theorem claim_C4_start_step_failure_witness :
    Event.exited 1 ∈ (Process.startP 2 envABC sStartFail []).2.1 ∧
    Event.stepRan (Step.startFn "fB" (mkIni "B" 2 2 2))
        ∉ (Process.startP 2 envABC sStartFail []).2.1 :=
  ⟨(claim_C4_start_step_failure 0 envABC sStartFail []
      [Step.startFn "fA" (mkIni "A" 1 1 1)] (Step.startFn "fBad" iniBadStart)
      [Step.startFn "fB" (mkIni "B" 2 2 2)] "boom" (Step.startFn "fB" (mkIni "B" 2 2 2))
      (by rfl) (by rfl) (by decide) (by rfl)).2.2.1,
   (claim_C4_start_step_failure 0 envABC sStartFail []
      [Step.startFn "fA" (mkIni "A" 1 1 1)] (Step.startFn "fBad" iniBadStart)
      [Step.startFn "fB" (mkIni "B" 2 2 2)] "boom" (Step.startFn "fB" (mkIni "B" 2 2 2))
      (by rfl) (by rfl) (by decide) (by rfl)).2.2.2
      (by decide) (by decide) (by decide) (by decide) (by decide) (by decide)⟩

/-- Witness for C10 at the concrete failing stop list: `stop()` is
entered exactly twice and exactly one exit is recorded. -/
theorem claim_C10_stop_failure_no_double_run_witness :
    ((Process.stop 3 sStopFail []).2.drop ([] : List Event).length).count Event.stopCalled = 2 ∧
    ((Process.stop 3 sStopFail []).2.drop ([] : List Event).length).count (Event.exited 1) = 1 :=
  ⟨(claim_C10_stop_failure_no_double_run 0 sStopFail []
      [Step.stopFn "fA" (mkIni "A" 1 1 1)] (Step.stopFn "fBadStop" iniBadStop)
      [Step.stopFn "fB" (mkIni "B" 2 2 2)] "boom"
      (by rfl) (by rfl) (by decide) (by rfl)).2.2.2.1,
   (claim_C10_stop_failure_no_double_run 0 sStopFail []
      [Step.stopFn "fA" (mkIni "A" 1 1 1)] (Step.stopFn "fBadStop" iniBadStop)
      [Step.stopFn "fB" (mkIni "B" 2 2 2)] "boom"
      (by rfl) (by rfl) (by decide) (by rfl)).2.2.2.2.1⟩
